import Mathlib

/-!
# go-mysqlserver: credential-based backend selection and session routing

A shallow embedding of `cmd/go-mysqlserver` (packages `config`, `clients`,
`handler`) and theorems about it.

Conventions of the embedding

* Go `int` is `Int`, Go `string` is `String`, a Go slice is a `List`.
* A Go `(value, bool)` or nilable pointer result is an `Option`.
* A Go `error` is `Option Error` (`none` is `nil`).
* Calls that leave the program (the network, the upstream server) take their
  outcome as an explicit argument and are recorded in a list of `Call`s.
* `strings.EqualFold` and `strings.ToLower` of the Go standard library are
  taken as parameters, so every theorem holds for the real functions.
-/

namespace GoMysql

/-! ## package config -/

/-- Server defines a single upstream MySQL configuration (`config.Server`). -/
structure Server where
  Name : String
  Host : String
  Port : Int
  User : String
  Password : String
  Database : String
  Charset : String
  Collation : String
  Timeout : String
  ReadTimeout : String
  WriteTimeout : String
  Loc : String
  TLS : String
  deriving DecidableEq, Repr, Inhabited

/-! ## package clients: Manager -/

/-- A `net.Addr` as `splitHostPort` sees it: the three ways the standard
library calls `net.SplitHostPort` and `strconv.Atoi` can come out. -/
inductive Addr where
  /-- `addr == nil` -/
  | nil
  /-- `net.SplitHostPort(addr.String())` returns an error -/
  | unsplit
  /-- the address splits, `strconv.Atoi` rejects the port text -/
  | badPort (host : String)
  /-- the address splits into a host and a numeric port -/
  | hostPort (host : String) (port : Int)
  deriving DecidableEq, Repr

/-- The function `splitHostPort` of manager.go. -/
def splitHostPort : Addr → String × Int
  | .nil => ("", 0)
  | .unsplit => ("", 0)
  | .badPort host => (host, 0)
  | .hostPort host port => (host, port)

/-- Manager builds upstream MySQL clients from config and matches incoming credentials. -/
structure Manager where
  servers : List Server
  deriving DecidableEq, Repr

/-- The constructor `NewManager`: an order-preserving copy of the list. -/
def NewManager (servers : List Server) : Manager := { servers := servers }

/-- The accessor `Manager.Servers`: a copy of the configured list. -/
def Manager.Servers (m : Manager) : List Server := m.servers

/-- The `for _, srv := range m.servers` loop of `Manager.Match`, with the local
variable `fallback` threaded through; an early `return &match, true` ends it. -/
def Manager.matchLoop (EqualFold : String → String → Bool) (host : String) (port : Int)
    (user password : String) : List Server → Option Server → Option Server
  | [], fallback => fallback
  | srv :: rest, fallback =>
    if srv.User != user || srv.Password != password then
      Manager.matchLoop EqualFold host port user password rest fallback
    else if srv.Host != "" && host != "" && !EqualFold srv.Host host then
      Manager.matchLoop EqualFold host port user password rest
        (if fallback.isNone then some srv else fallback)
    else if srv.Port != 0 && port != 0 && srv.Port != port then
      Manager.matchLoop EqualFold host port user password rest
        (if fallback.isNone then some srv else fallback)
    else
      some srv

/-- Match returns the first server whose user/password match.
If a host/port match is found, it is preferred but not required. -/
def Manager.Match (EqualFold : String → String → Bool) (m : Manager) (localAddr : Addr)
    (user password : String) : Option Server :=
  let (host, port) := splitHostPort localAddr
  Manager.matchLoop EqualFold host port user password m.servers none

/-- ASCII case-insensitive equality: a sample instance of `strings.EqualFold`
for evaluating the definitions on concrete inputs. -/
def asciiEqualFold (s t : String) : Bool :=
  s.data.map Char.toLower == t.data.map Char.toLower

/-- The credential record `server.Credential` of the protocol engine; its zero
value has an empty plugin name and no passwords. -/
structure Credential where
  AuthPluginName : String
  Passwords : List String
  deriving DecidableEq, Repr

/-- The zero value of `server.Credential`, which `creds[user]` yields for an absent key. -/
def Credential.zero : Credential := { AuthPluginName := "", Passwords := [] }

/-- Modelled from the spec: the constant `mysql.AUTH_NATIVE_PASSWORD` of package
`mysql` (the auth-plugin id of the Credential Set), declared outside the files
embedded here. No theorem depends on its value. -/
def AUTH_NATIVE_PASSWORD : String := "mysql_native_password"

/-- A Go `map[string]server.Credential` as an association list; `set` keeps at
most one entry per key. -/
structure CredMap where
  entries : List (String × Credential)
  deriving DecidableEq, Repr

/-- The empty map `make(map[string]server.Credential)`. -/
def CredMap.empty : CredMap := { entries := [] }

/-- The two-valued read `cred, ok := m[key]`. -/
def CredMap.get (m : CredMap) (key : String) : Option Credential :=
  match m.entries.find? (fun e => e.1 == key) with
  | some e => some e.2
  | none => none

/-- The one-valued read `m[key]`: the zero value for an absent key. -/
def CredMap.getZ (m : CredMap) (key : String) : Credential :=
  (m.get key).getD Credential.zero

/-- The entries of `m[key] = value`. -/
def CredMap.setEntries (key : String) (value : Credential) :
    List (String × Credential) → List (String × Credential)
  | [] => [(key, value)]
  | e :: rest =>
    if e.1 == key then (key, value) :: rest else e :: CredMap.setEntries key value rest

/-- The assignment `m[key] = value`. -/
def CredMap.set (m : CredMap) (key : String) (value : Credential) : CredMap :=
  { entries := CredMap.setEntries key value m.entries }

/-- The keys a `for user := range m` visits. -/
def CredMap.keys (m : CredMap) : List String := m.entries.map Prod.fst

/-- The call `sort.Strings`: ascending order of strings. -/
def sortStrings (values : List String) : List String :=
  values.insertionSort (· ≤ ·)

/-- The loop of `uniqueStrings`: `seen` is the set of values met so far,
`unique` the slice being appended to. -/
def uniqueLoop : List String → List String → List String → List String
  | [], _, unique => unique
  | value :: rest, seen, unique =>
    if value ∈ seen then uniqueLoop rest seen unique
    else uniqueLoop rest (value :: seen) (unique ++ [value])

/-- The function `uniqueStrings` of auth.go. -/
def uniqueStrings (values : List String) (seen : List String) : List String :=
  sortStrings (uniqueLoop values seen [])

/-- The closure `addCredential` of `NewAuthHandler`, with the map it updates. -/
def addCredential (creds : CredMap) (user password : String) : CredMap :=
  if user == "" then creds
  else
    let credential := creds.getZ user
    creds.set user
      { AuthPluginName := AUTH_NATIVE_PASSWORD
        Passwords := credential.Passwords ++ [password] }

/-- One iteration of `for user := range creds` in `NewAuthHandler`. -/
def dedupCredential (creds : CredMap) (user : String) : CredMap :=
  let passwords := (creds.getZ user).Passwords
  creds.set user
    { AuthPluginName := (creds.getZ user).AuthPluginName
      Passwords := uniqueStrings passwords [] }

/-- The credential one iteration of the range loop stores: the same plugin
name, the passwords de-duplicated and sorted. -/
def dedupPasswords (credential : Credential) : Credential :=
  { AuthPluginName := credential.AuthPluginName
    Passwords := uniqueStrings credential.Passwords [] }

/-- The loop `for _, srv := range manager.Servers()` of `NewAuthHandler`, from map `creds`. -/
def credsOfServers (servers : List Server) (creds : CredMap) : CredMap :=
  servers.foldl (fun c srv => addCredential c srv.User srv.Password) creds

/-- AuthHandler authenticates users and selects the upstream target on success.
The `selector` it points to is the session's `ProxyHandler`, passed to
`OnAuthSuccess` as explicit state. -/
structure AuthHandler where
  creds : CredMap
  manager : Manager
  deriving DecidableEq, Repr

/-- The constructor `NewAuthHandler`. -/
def NewAuthHandler (manager : Manager) (fallbackUser fallbackPassword : String) : AuthHandler :=
  let creds := CredMap.empty
  let creds := manager.Servers.foldl (fun c srv => addCredential c srv.User srv.Password) creds
  let creds := addCredential creds fallbackUser fallbackPassword
  let creds := creds.keys.foldl dedupCredential creds
  { creds := creds, manager := manager }

/-- The lookup `AuthHandler.GetCredential`; its error result is always nil. -/
def AuthHandler.GetCredential (h : AuthHandler) (username : String) : Option Credential :=
  h.creds.get username

/-! ## package handler: MyHandler, the local stub -/

/-- A Go `error` value, by the way the program builds it. -/
inductive Error where
  /-- an error made by `fmt.Errorf` without wrapping, or returned by a callee
  outside the program -/
  | msg (text : String)
  /-- an error made by `mysql.NewError(code, message)` -/
  | mysql (code : Nat) (message : String)
  /-- an error made by `fmt.Errorf("<context>: %w", err)` -/
  | wrap (context : String) (err : Error)
  deriving DecidableEq, Repr

/-- A value of a result-set cell (`interface{}` in a row of
`BuildSimpleResultset`, a `mysql.FieldValue` in the sample result set). -/
inductive Value where
  /-- the nil interface, SQL NULL -/
  | null
  /-- a string -/
  | str (s : String)
  /-- a signed integer -/
  | int (n : Int)
  deriving DecidableEq, Repr

/-- A `mysql.Resultset` by its column names and its rows of values; field
types, flags and the wire encoding of the rows are not part of the embedding. -/
structure Resultset where
  FieldNames : List String
  Values : List (List Value)
  deriving DecidableEq, Repr

/-- A `*mysql.Result`: `Resultset` is nil for a result without rows. -/
structure Result where
  Resultset : Option Resultset
  deriving DecidableEq, Repr

/-- Modelled from the spec: `mysql.BuildSimpleResultset(names, values, false)`
of package `mysql`, which is outside the files embedded here: a result set with
the given column names and rows ("returning canned data"); a row whose length
differs from the number of columns is an error. -/
def BuildSimpleResultset (names : List String) (values : List (List Value)) :
    Except Error Resultset :=
  if values.all (fun row => row.length == names.length) then
    .ok { FieldNames := names, Values := values }
  else .error (.msg "row has a column count not equal to the field count")

/-- Modelled from the spec: `mysql.NewResult(r)`, a result holding result set `r`. -/
def NewResult (r : Resultset) : Result := { Resultset := some r }

/-- Modelled from the spec: `mysql.NewResultReserveResultset(n)`, a result with
an empty result set of `n` columns; the program calls it with `n = 0`. -/
def NewResultReserveResultset (n : Nat) : Result :=
  { Resultset := some { FieldNames := List.replicate n "", Values := [] } }

/-- The predicate `unicode.IsSpace`, by code point: what `strings.TrimSpace` removes. -/
def isSpace (c : Char) : Bool :=
  c.toNat ∈ [0x09, 0x0A, 0x0B, 0x0C, 0x0D, 0x20, 0x85, 0xA0, 0x1680, 0x2028, 0x2029,
    0x202F, 0x205F, 0x3000] || (0x2000 ≤ c.toNat && c.toNat ≤ 0x200A)

/-- Removes the leading and the trailing characters that satisfy `p`. -/
def trimChars (p : Char → Bool) (cs : List Char) : List Char :=
  ((cs.dropWhile p).reverse.dropWhile p).reverse

/-- The call `strings.TrimSpace`. -/
def TrimSpace (s : String) : String := ⟨trimChars isSpace s.data⟩

/-- The call `strings.Trim(s, cutset)`. -/
def Trim (s cutset : String) : String := ⟨trimChars (fun c => c ∈ cutset.data) s.data⟩

/-- The call `strings.HasSuffix`. -/
def HasSuffix (s suffix : String) : Bool := suffix.data.isSuffixOf s.data

/-- The call `strings.HasPrefix`. -/
def HasPrefix (s pre : String) : Bool := pre.data.isPrefixOf s.data

/-- The call `strings.TrimSuffix`. -/
def TrimSuffix (s suffix : String) : String :=
  if HasSuffix s suffix then ⟨s.data.take (s.data.length - suffix.data.length)⟩ else s

/-- The loop `for strings.HasSuffix(trimmed, ";")` of `normalizeQuery`; every
iteration removes a character, so `fuel` equal to the length of the text is
never exhausted. -/
def normalizeLoop : Nat → String → String
  | 0, trimmed => trimmed
  | fuel + 1, trimmed =>
    if HasSuffix trimmed ";" then normalizeLoop fuel (TrimSpace (TrimSuffix trimmed ";"))
    else trimmed

/-- The function `normalizeQuery` of handle.go. -/
def normalizeQuery (query : String) : String :=
  let trimmed := TrimSpace query
  normalizeLoop trimmed.length trimmed

/-- MyHandler is a mostly empty implementation for demonstration purposes. -/
structure MyHandler where
  currentDB : String
  deriving DecidableEq, Repr

/-- UseDB is called for COM_INIT_DB. -/
def MyHandler.UseDB (_h : MyHandler) (dbName : String) : MyHandler × Option Error :=
  ({ currentDB := dbName }, none)

/-- Two decimal digits, as `%02d` prints a number below 100. -/
def pad2 (n : Nat) : String :=
  if n < 10 then "0" ++ toString n else toString n

/-- The ten rows of the sample result set of `select * from users`. -/
def usersRows : List (List Value) :=
  (List.range 10).map fun k =>
    let i : Nat := k + 1
    [Value.int (Int.ofNat i), Value.str ("user" ++ pad2 i), Value.int (Int.ofNat (20 + i)),
      Value.str (if i % 2 == 0 then "F" else "M"),
      Value.str ("2025-12-" ++ pad2 (1 + i) ++ " 09:00:00")]

/-- HandleQuery is called for COM_QUERY. The result is the handler afterwards
and `(result, err)`, where a nil result is `none`. `EqualFold` and `ToLower` are
the functions of package `strings`. The slice `normalized[len("use "):]` is taken
by characters: the four leading characters lower to the ASCII text `use `. -/
def MyHandler.HandleQuery (EqualFold : String → String → Bool) (ToLower : String → String)
    (h : MyHandler) (query : String) : MyHandler × Except Error (Option Result) :=
  let normalized := normalizeQuery query
  if EqualFold normalized "SET NAMES 'utf8mb4'" then (h, .ok none)
  else if EqualFold normalized "select concat(@@version, ' ', @@version_comment)" then
    match BuildSimpleResultset ["concat(@@version, ' ', @@version_comment)"]
        [[Value.str "8.0.11"]] with
    | .error err => (h, .error err)
    | .ok r => (h, .ok (some (NewResult r)))
  else if EqualFold normalized "show databases" then
    match BuildSimpleResultset ["Database"] [[Value.str "userdb"]] with
    | .error err => (h, .error err)
    | .ok r => (h, .ok (some (NewResult r)))
  else if EqualFold normalized "select database()" || EqualFold normalized "select schema()" then
    let current := if h.currentDB != "" then Value.str h.currentDB else Value.null
    match BuildSimpleResultset ["DATABASE()"] [[current]] with
    | .error err => (h, .error err)
    | .ok r => (h, .ok (some (NewResult r)))
  else if HasPrefix (ToLower normalized) "use " then
    let dbName := TrimSpace ⟨normalized.data.drop 4⟩
    let dbName := Trim dbName "`\"'"
    let h := if dbName != "" then { h with currentDB := dbName } else h
    (h, .ok (some (NewResultReserveResultset 0)))
  else if EqualFold normalized "select * from users" then
    (h, .ok (some (NewResult
      { FieldNames := ["userid", "username", "age", "gender", "create_date"]
        Values := usersRows })))
  else (h, .error (.msg "not supported now"))

/-! ## package handler: ProxyHandler, the session router -/

/-- An upstream connection `*client.Conn` as the session sees it: the identity
of the connection and the database `GetDB()` reports when `Connect` returns. -/
structure Conn where
  id : Nat
  db : String
  deriving DecidableEq, Repr

/-- A call the session router makes on a collaborator. -/
inductive Call where
  /-- the call `h.manager.Connect(ctx, cfg)` -/
  | Connect (cfg : Server)
  /-- the call `UseDB(dbName)` on the upstream connection -/
  | UpstreamUseDB (conn : Conn) (dbName : String)
  /-- the call `Execute(query)` on the upstream connection -/
  | UpstreamExecute (conn : Conn) (query : String)
  /-- the call `Close()` on the upstream connection -/
  | UpstreamClose (conn : Conn)
  /-- the call `h.fallback.UseDB(dbName)` -/
  | StubUseDB (dbName : String)
  /-- the call `h.fallback.HandleQuery(query)` -/
  | StubHandleQuery (query : String)
  deriving DecidableEq, Repr

/-- ProxyHandler forwards requests to upstream MySQL when configured, otherwise
falls back to MyHandler. The mutex `mu` has no counterpart: the commands of one
session run one after the other. -/
structure ProxyHandler where
  manager : Manager
  fallback : MyHandler
  upstream : Option Conn
  upstreamCfg : Option Server
  pendingDB : String
  proxyEnabled : Bool
  modeSet : Bool
  deriving DecidableEq, Repr

/-- The constructor `NewProxyHandler`. -/
def NewProxyHandler (manager : Manager) : ProxyHandler :=
  { manager := manager, fallback := { currentDB := "" }, upstream := none,
    upstreamCfg := none, pendingDB := "", proxyEnabled := false, modeSet := false }

/-- What a method of the session router leaves behind: the handler afterwards,
the value returned, and the calls made on collaborators, in order. -/
structure Ret (α : Type) where
  handler : ProxyHandler
  value : α
  calls : List Call

/-- The method `ProxyHandler.SetUpstream`. `connect` is the outcome of
`h.manager.Connect` and `useDB` the outcome of `conn.UseDB(pendingDB)`; each is
read only when the call is made. -/
def ProxyHandler.SetUpstream (h : ProxyHandler) (cfg : Server) (connect : Except Error Conn)
    (useDB : Option Error) : Ret (Option Error) :=
  if h.proxyEnabled then ⟨h, none, []⟩
  else
    let h := { h with modeSet := true }
    match connect with
    | .error err => ⟨h, some err, [.Connect cfg]⟩
    | .ok conn =>
      let h := { h with upstream := some conn, upstreamCfg := some cfg, proxyEnabled := true }
      let pendingDB := h.pendingDB
      if pendingDB != "" && pendingDB != conn.db then
        match useDB with
        | some err => ⟨h, some err, [.Connect cfg, .UpstreamUseDB conn pendingDB]⟩
        | none => ⟨h, none, [.Connect cfg, .UpstreamUseDB conn pendingDB]⟩
      else ⟨h, none, [.Connect cfg]⟩

/-- The method `ProxyHandler.SetFallback`. -/
def ProxyHandler.SetFallback (h : ProxyHandler) : Ret Unit :=
  let h := { h with proxyEnabled := false, modeSet := true, upstreamCfg := none }
  let pendingDB := h.pendingDB
  if pendingDB != "" then
    ⟨{ h with fallback := (h.fallback.UseDB pendingDB).1 }, (), [.StubUseDB pendingDB]⟩
  else ⟨h, (), []⟩

/-- The method `ProxyHandler.UseDB`. `upstreamUseDB` is the outcome of
`upstream.UseDB(dbName)`, read only when the call is made. -/
def ProxyHandler.UseDB (h : ProxyHandler) (dbName : String) (upstreamUseDB : Option Error) :
    Ret (Option Error) :=
  let h := { h with pendingDB := dbName }
  let upstream := h.upstream
  let proxyEnabled := h.proxyEnabled
  let modeSet := h.modeSet
  match upstream with
  | some conn => ⟨h, upstreamUseDB, [.UpstreamUseDB conn dbName]⟩
  | none =>
    if modeSet && !proxyEnabled then
      let r := h.fallback.UseDB dbName
      ⟨{ h with fallback := r.1 }, r.2, [.StubUseDB dbName]⟩
    else ⟨h, none, []⟩

/-- The method `ProxyHandler.getUpstream`. -/
def ProxyHandler.getUpstream (h : ProxyHandler) : Option Conn :=
  if !h.proxyEnabled then none else h.upstream

/-- The method `ProxyHandler.HandleQuery`. `execute` is the outcome of
`upstream.Execute(query)`, read only when the call is made. -/
def ProxyHandler.HandleQuery (EqualFold : String → String → Bool) (ToLower : String → String)
    (h : ProxyHandler) (query : String) (execute : Except Error Result) :
    Ret (Except Error (Option Result)) :=
  match h.getUpstream with
  | some conn =>
    match execute with
    | .error err => ⟨h, .error err, [.UpstreamExecute conn query]⟩
    | .ok result => ⟨h, .ok (some result), [.UpstreamExecute conn query]⟩
  | none =>
    let r := h.fallback.HandleQuery EqualFold ToLower query
    match r.2 with
    | .error err => ⟨{ h with fallback := r.1 }, .error err, [.StubHandleQuery query]⟩
    | .ok result => ⟨{ h with fallback := r.1 }, .ok result, [.StubHandleQuery query]⟩

/-- The method `ProxyHandler.Close`. -/
def ProxyHandler.Close (h : ProxyHandler) : Ret (Option Error) :=
  let upstream := h.upstream
  let h := { h with upstream := none }
  match upstream with
  | some conn => ⟨h, none, [.UpstreamClose conn]⟩
  | none => ⟨h, none, []⟩

/-- The mode of the Session State, read off the two flags the way the code
tests them: `getUpstream` routes to the upstream on `proxyEnabled`, `UseDB`
routes to the stub on `modeSet && !proxyEnabled`. -/
inductive Mode where
  | Undecided
  | Proxy
  | Fallback
  deriving DecidableEq, Repr

/-- The mode of a session. -/
def ProxyHandler.mode (h : ProxyHandler) : Mode :=
  if h.proxyEnabled then .Proxy else if h.modeSet then .Fallback else .Undecided

/-- One call on the session router, with the outcomes of the upstream calls it may make. -/
inductive Op where
  | SetUpstream (cfg : Server) (connect : Except Error Conn) (useDB : Option Error)
  | SetFallback
  | UseDB (dbName : String) (upstreamUseDB : Option Error)
  | Close

/-- The session after one call. -/
def ProxyHandler.step (h : ProxyHandler) : Op → ProxyHandler
  | .SetUpstream cfg connect useDB => (h.SetUpstream cfg connect useDB).handler
  | .SetFallback => h.SetFallback.handler
  | .UseDB dbName upstreamUseDB => (h.UseDB dbName upstreamUseDB).handler
  | .Close => h.Close.handler

/-- The session after a sequence of calls. -/
def ProxyHandler.run (h : ProxyHandler) (ops : List Op) : ProxyHandler :=
  ops.foldl ProxyHandler.step h

/-- The calls a sequence of calls on the session router makes on collaborators. -/
def ProxyHandler.trace (h : ProxyHandler) : List Op → List Call
  | [] => []
  | .SetUpstream cfg connect useDB :: ops =>
    (h.SetUpstream cfg connect useDB).calls ++
      ProxyHandler.trace (h.SetUpstream cfg connect useDB).handler ops
  | .SetFallback :: ops => h.SetFallback.calls ++ ProxyHandler.trace h.SetFallback.handler ops
  | .UseDB dbName upstreamUseDB :: ops =>
    (h.UseDB dbName upstreamUseDB).calls ++
      ProxyHandler.trace (h.UseDB dbName upstreamUseDB).handler ops
  | .Close :: ops => h.Close.calls ++ ProxyHandler.trace h.Close.handler ops

/-- A session state the four calls can produce from a new session. -/
def Reachable (h : ProxyHandler) : Prop :=
  ∃ manager ops, (NewProxyHandler manager).run ops = h

/-! ## package clients: AuthHandler.OnAuthSuccess -/

/-- The part of `*server.Conn` that `OnAuthSuccess` reads: `GetUser()`,
`AuthPassword()` and `LocalAddr()`. -/
structure ServerConn where
  user : String
  authPassword : String
  localAddr : Addr
  deriving DecidableEq, Repr

/-- The method `AuthHandler.OnAuthSuccess`, with the selector `h.selector` as
explicit state; `connect` and `useDB` are the outcomes `SetUpstream` may need. -/
def AuthHandler.OnAuthSuccess (EqualFold : String → String → Bool) (h : AuthHandler)
    (selector : ProxyHandler) (conn : ServerConn) (connect : Except Error Conn)
    (useDB : Option Error) : Ret (Option Error) :=
  let user := conn.user
  let password := conn.authPassword
  match h.manager.Match EqualFold conn.localAddr user password with
  | some srv =>
    let r := selector.SetUpstream srv connect useDB
    match r.value with
    | some err => ⟨r.handler, some (.wrap "connect upstream" err), r.calls⟩
    | none => ⟨r.handler, none, r.calls⟩
  | none =>
    let r := selector.SetFallback
    ⟨r.handler, none, r.calls⟩

/-! ### The reference `Match` of the specification -/

/-- Equal user and password. -/
def sameCredentials (user password : String) (srv : Server) : Bool :=
  srv.User == user && srv.Password == password

/-- Address compatibility: descriptor host empty, or connecting host empty, or
equal ignoring case; and descriptor port 0, or connecting port 0, or equal. -/
def addressCompatible (EqualFold : String → String → Bool) (host : String) (port : Int)
    (srv : Server) : Bool :=
  (srv.Host == "" || host == "" || EqualFold srv.Host host) &&
  (srv.Port == 0 || port == 0 || srv.Port == port)

/-- A strict match: credentials equal and address compatible. -/
def strictMatch (EqualFold : String → String → Bool) (host : String) (port : Int)
    (user password : String) (srv : Server) : Bool :=
  sameCredentials user password srv && addressCompatible EqualFold host port srv

/-- The reference of the specification: the first strict match in configured
order, else the first descriptor with equal credentials, else not-found. -/
def matchReference (EqualFold : String → String → Bool) (servers : List Server)
    (host : String) (port : Int) (user password : String) : Option Server :=
  match servers.find? (strictMatch EqualFold host port user password) with
  | some srv => some srv
  | none => servers.find? (sameCredentials user password)

/-- What holds of every session state the calls produce from a new session:
an undecided session holds no connection and has proxying off, and a session
with proxying off has no selected descriptor. -/
def SessionInv (h : ProxyHandler) : Prop :=
  (h.modeSet = false → h.upstream = none ∧ h.proxyEnabled = false) ∧
  (h.proxyEnabled = false → h.upstreamCfg = none)

/-- The number of `Connect` calls in a list of calls. -/
def countConnect (calls : List Call) : Nat :=
  calls.countP fun c => match c with
    | .Connect _ => true
    | _ => false

/-- The number of `h.fallback.UseDB` calls in a list of calls. -/
def countStubUseDB (calls : List Call) : Nat :=
  calls.countP fun c => match c with
    | .StubUseDB _ => true
    | _ => false

/-- Whether a call goes to the upstream connection or the connection factory. -/
def Call.isUpstream : Call → Bool
  | .Connect _ => true
  | .UpstreamUseDB _ _ => true
  | .UpstreamExecute _ _ => true
  | .UpstreamClose _ => true
  | .StubUseDB _ => false
  | .StubHandleQuery _ => false

/-- Modelled from the spec: the constant `mysql.COM_SET_OPTION` of package
`mysql` (the opcode of the session-option command on the allow-list), declared
outside the files embedded here; its protocol value is 27. -/
def COM_SET_OPTION : Nat := 27

/-- Modelled from the spec: the constant `mysql.ER_UNKNOWN_ERROR` of package
`mysql` (the code of the generic error), declared outside the files embedded
here; its protocol value is 1105. -/
def ER_UNKNOWN_ERROR : Nat := 1105

/-- Modelled from the spec: `mysql.NewError(code, message)` of package `mysql`,
an error that holds the code and the message it is given. -/
def NewError (code : Nat) (message : String) : Error := .mysql code message

/-- The method `ProxyHandler.HandleOtherCommand`. The opcode `cmd` is a byte and
`%d` prints it in decimal; the payload is written to the log only. -/
def ProxyHandler.HandleOtherCommand (h : ProxyHandler) (cmd : Nat) (_data : List Nat) :
    Ret (Option Error) :=
  if cmd == COM_SET_OPTION then ⟨h, none, []⟩
  else
    ⟨h, some (NewError ER_UNKNOWN_ERROR ("command " ++ toString cmd ++ " is not supported now")),
      []⟩

/-- The connections that the `Connect` calls of a sequence of calls return, in order. -/
def ProxyHandler.opened (h : ProxyHandler) : List Op → List Conn
  | [] => []
  | .SetUpstream cfg connect useDB :: ops =>
    (if h.proxyEnabled then []
      else match connect with
        | .ok conn => [conn]
        | .error _ => []) ++
      ProxyHandler.opened (h.SetUpstream cfg connect useDB).handler ops
  | .SetFallback :: ops => ProxyHandler.opened h.SetFallback.handler ops
  | .UseDB dbName upstreamUseDB :: ops =>
    ProxyHandler.opened (h.UseDB dbName upstreamUseDB).handler ops
  | .Close :: ops => ProxyHandler.opened h.Close.handler ops

/-- The number of `Close()` calls on the upstream connection `id` in a list of calls. -/
def countClose (id : Nat) (calls : List Call) : Nat :=
  calls.countP fun c => match c with
    | .UpstreamClose conn => conn.id == id
    | _ => false

/-- Whether proxying is off in every state a sequence of calls passes through:
the session never enters Proxy mode. -/
def ProxyHandler.neverProxy (h : ProxyHandler) : List Op → Bool
  | [] => !h.proxyEnabled
  | op :: ops => !h.proxyEnabled && ProxyHandler.neverProxy (h.step op) ops

/-- The identities of the connection a session holds: one or none. -/
def ProxyHandler.heldIds (h : ProxyHandler) : List Nat :=
  match h.upstream with
  | some conn => [conn.id]
  | none => []

/-! ### Sample inputs -/

/-- A descriptor with the given name, host, port, user and password. -/
def mkServer (name host : String) (port : Int) (user password : String) : Server :=
  { Name := name, Host := host, Port := port, User := user, Password := password,
    Database := "", Charset := "", Collation := "", Timeout := "", ReadTimeout := "",
    WriteTimeout := "", Loc := "", TLS := "" }

/-! # Theorems -/

/-! ## Manager.Match -/

/-- One iteration of the loop of `Match`, by its two tests. -/
theorem Manager.matchLoop_cons (EqualFold : String → String → Bool) (host : String) (port : Int)
    (user password : String) (srv : Server) (rest : List Server) (fallback : Option Server) :
    Manager.matchLoop EqualFold host port user password (srv :: rest) fallback =
      if sameCredentials user password srv = false then
        Manager.matchLoop EqualFold host port user password rest fallback
      else if addressCompatible EqualFold host port srv = false then
        Manager.matchLoop EqualFold host port user password rest
          (if fallback.isNone then some srv else fallback)
      else some srv := by
  simp only [Manager.matchLoop, sameCredentials, addressCompatible]
  by_cases hu : srv.User = user <;> by_cases hp : srv.Password = password <;>
    simp [hu, hp]
  by_cases hh : (¬srv.Host = "" ∧ ¬host = "") ∧ EqualFold srv.Host host = false
  · have hc : ¬ ((srv.Host = "" ∨ host = "") ∨ EqualFold srv.Host host = true) := by
      rintro ((h | h) | h) <;> simp_all
    simp [hh, hc]
  · have hc : (srv.Host = "" ∨ host = "") ∨ EqualFold srv.Host host = true := by
      by_contra hn
      simp only [not_or, Bool.not_eq_true] at hn
      exact hh hn
    simp [hh, hc]

/-- The loop of `Match`, started with any value of `fallback`, returns the first
strict match of the remaining list, else `fallback` when that is set, else the
first remaining descriptor with equal credentials. -/
theorem matchLoop_spec (EqualFold : String → String → Bool) (host : String) (port : Int)
    (user password : String) (servers : List Server) (fallback : Option Server) :
    Manager.matchLoop EqualFold host port user password servers fallback =
      match servers.find? (strictMatch EqualFold host port user password) with
      | some srv => some srv
      | none =>
        match fallback with
        | some f => some f
        | none => servers.find? (sameCredentials user password) := by
  induction servers generalizing fallback with
  | nil => cases fallback <;> simp [Manager.matchLoop]
  | cons srv rest ih =>
    rw [Manager.matchLoop_cons, List.find?_cons, List.find?_cons]
    cases hc : sameCredentials user password srv
    · simp [strictMatch, hc, ih]
    · cases ha : addressCompatible EqualFold host port srv
      · cases fallback <;> simp [strictMatch, hc, ha, ih]
      · simp [strictMatch, hc, ha]

/-- The method `Match` unfolded to the reference, for use in later proofs. -/
theorem Match_unfold (EqualFold : String → String → Bool) (servers : List Server)
    (localAddr : Addr) (user password : String) :
    (NewManager servers).Match EqualFold localAddr user password =
      matchReference EqualFold servers (splitHostPort localAddr).1 (splitHostPort localAddr).2
        user password := by
  simp only [Manager.Match, NewManager, matchReference, matchLoop_spec]

/-- C1. For every backend list, connecting address and user/password,
`Manager.Match` equals the reference: the first descriptor in configured order
with equal credentials and a compatible address, else the first descriptor with
equal credentials, else not-found. -/
theorem Match_eq_matchReference (EqualFold : String → String → Bool) (servers : List Server)
    (localAddr : Addr) (user password : String) :
    (NewManager servers).Match EqualFold localAddr user password =
      matchReference EqualFold servers (splitHostPort localAddr).1 (splitHostPort localAddr).2
        user password :=
  Match_unfold EqualFold servers localAddr user password

theorem CredMap.get_mk (es : List (String × Credential)) (key : String) :
    (CredMap.mk es).get key = (es.find? (fun e => e.1 == key)).map Prod.snd := by
  unfold CredMap.get
  cases es.find? (fun e => e.1 == key) <;> rfl

theorem CredMap.find_setEntries (key key2 : String) (value : Credential)
    (es : List (String × Credential)) :
    ((CredMap.setEntries key value es).find? (fun e => e.1 == key2)).map Prod.snd =
      if key2 = key then some value else (es.find? (fun e => e.1 == key2)).map Prod.snd := by
  induction es with
  | nil =>
    by_cases h : key2 = key
    · simp [CredMap.setEntries, h]
    · have h2 : ¬ key = key2 := fun e => h e.symm
      simp [CredMap.setEntries, h, h2]
  | cons e rest ih =>
    unfold CredMap.setEntries
    by_cases he : e.1 = key
    · by_cases h : key2 = key
      · simp [he, h]
      · have h2 : ¬ key = key2 := fun e => h e.symm
        simp [he, h, h2, List.find?_cons]
    · have hb : (e.1 == key) = false := by simpa using he
      simp only [hb, Bool.false_eq_true, if_false, List.find?_cons]
      by_cases h3 : e.1 = key2
      · have h4 : ¬ key2 = key := by rw [← h3]; exact he
        simp [h3, h4]
      · have hb3 : (e.1 == key2) = false := by simpa using h3
        simp only [hb3, ih]

/-- Reading a map after an assignment. -/
theorem CredMap.get_set (m : CredMap) (key key2 : String) (value : Credential) :
    (m.set key value).get key2 = if key2 = key then some value else m.get key2 := by
  cases m with
  | mk es => simp only [CredMap.set, CredMap.get_mk, CredMap.find_setEntries]

theorem CredMap.getZ_set (m : CredMap) (key key2 : String) (value : Credential) :
    (m.set key value).getZ key2 = if key2 = key then value else m.getZ key2 := by
  unfold CredMap.getZ
  rw [CredMap.get_set]
  split <;> rfl

theorem CredMap.keys_setEntries (key : String) (value : Credential)
    (es : List (String × Credential)) :
    (CredMap.setEntries key value es).map Prod.fst =
      if key ∈ es.map Prod.fst then es.map Prod.fst else es.map Prod.fst ++ [key] := by
  induction es with
  | nil => simp [CredMap.setEntries]
  | cons e rest ih =>
    unfold CredMap.setEntries
    by_cases he : e.1 = key
    · simp [he]
    · have h2 : ¬ key = e.1 := fun h => he h.symm
      simp only [beq_iff_eq, he, if_false, List.map_cons, ih, List.mem_cons, h2, false_or]
      split <;> simp

/-- An assignment keeps the keys of a map distinct. -/
theorem CredMap.keys_set_nodup (m : CredMap) (key : String) (value : Credential)
    (h : m.keys.Nodup) : (m.set key value).keys.Nodup := by
  cases m with
  | mk es =>
    simp only [CredMap.set, CredMap.keys, CredMap.keys_setEntries] at h ⊢
    split
    · exact h
    · rename_i hk
      rw [List.nodup_append]
      refine ⟨h, List.nodup_singleton _, ?_⟩
      intro a ha hb
      rw [List.mem_singleton] at hb
      subst hb
      exact hk ha

/-- A key is visited by the range loop exactly when the map has an entry for it. -/
theorem CredMap.mem_keys (m : CredMap) (key : String) :
    key ∈ m.keys ↔ ∃ value, m.get key = some value := by
  cases m with
  | mk es =>
    simp only [CredMap.keys, CredMap.get_mk]
    induction es with
    | nil => simp
    | cons e rest ih =>
      by_cases he : e.1 = key
      · simp [he, List.find?_cons]
      · have h2 : ¬ key = e.1 := fun h => he h.symm
        have hb : (e.1 == key) = false := by simpa using he
        simp only [List.map_cons, List.mem_cons, h2, false_or, ih, List.find?_cons, hb]

/-! ## uniqueStrings -/

theorem mem_uniqueLoop (x : String) (values seen unique : List String) :
    x ∈ uniqueLoop values seen unique ↔ x ∈ unique ∨ (x ∈ values ∧ x ∉ seen) := by
  induction values generalizing seen unique with
  | nil => simp [uniqueLoop]
  | cons v rest ih =>
    unfold uniqueLoop
    by_cases hv : v ∈ seen
    · rw [if_pos hv, ih]
      constructor
      · rintro (h | ⟨h1, h2⟩)
        · exact Or.inl h
        · exact Or.inr ⟨List.mem_cons_of_mem _ h1, h2⟩
      · rintro (h | ⟨h1, h2⟩)
        · exact Or.inl h
        · rcases List.mem_cons.mp h1 with h3 | h3
          · exact absurd (h3 ▸ hv) h2
          · exact Or.inr ⟨h3, h2⟩
    · rw [if_neg hv, ih]
      simp only [List.mem_append, List.mem_cons, List.not_mem_nil, or_false, not_or]
      constructor
      · rintro ((h | h) | ⟨h1, h2, h3⟩)
        · exact Or.inl h
        · exact Or.inr ⟨Or.inl h, h ▸ hv⟩
        · exact Or.inr ⟨Or.inr h1, h3⟩
      · rintro (h | ⟨h1 | h1, h2⟩)
        · exact Or.inl (Or.inl h)
        · exact Or.inl (Or.inr h1)
        · by_cases hx : x = v
          · exact Or.inl (Or.inr hx)
          · exact Or.inr ⟨h1, hx, h2⟩

theorem nodup_uniqueLoop (values seen unique : List String) (hu : unique.Nodup)
    (hs : ∀ x ∈ unique, x ∈ seen) : (uniqueLoop values seen unique).Nodup := by
  induction values generalizing seen unique with
  | nil => simpa [uniqueLoop] using hu
  | cons v rest ih =>
    unfold uniqueLoop
    by_cases hv : v ∈ seen
    · rw [if_pos hv]
      exact ih seen unique hu hs
    · rw [if_neg hv]
      apply ih
      · rw [List.nodup_append]
        refine ⟨hu, List.nodup_singleton _, ?_⟩
        intro a ha hb
        rw [List.mem_singleton] at hb
        subst hb
        exact hv (hs _ ha)
      · intro x hx
        rcases List.mem_append.mp hx with h | h
        · exact List.mem_cons_of_mem _ (hs x h)
        · rw [List.mem_singleton] at h
          subst h
          exact List.mem_cons_self _ _

/-- Both `uniqueStrings` and its input hold the same strings. -/
theorem mem_uniqueStrings (x : String) (values : List String) :
    x ∈ uniqueStrings values [] ↔ x ∈ values := by
  unfold uniqueStrings sortStrings
  rw [(List.perm_insertionSort _ _).mem_iff, mem_uniqueLoop]
  simp

/-- The result of `uniqueStrings` has no duplicates. -/
theorem nodup_uniqueStrings (values : List String) : (uniqueStrings values []).Nodup := by
  unfold uniqueStrings sortStrings
  rw [(List.perm_insertionSort _ _).nodup_iff]
  exact nodup_uniqueLoop values [] [] List.nodup_nil (by simp)

/-- The result of `uniqueStrings` is in ascending order. -/
theorem sorted_uniqueStrings (values : List String) :
    (uniqueStrings values []).Sorted (· ≤ ·) := by
  unfold uniqueStrings sortStrings
  exact List.sorted_insertionSort _ _

/-! ## NewAuthHandler -/

/-- The passwords of `u` after one `addCredential`. -/
theorem passwords_addCredential (creds : CredMap) (user password u : String) :
    ((addCredential creds user password).getZ u).Passwords =
      if user ≠ "" ∧ u = user then (creds.getZ u).Passwords ++ [password]
      else (creds.getZ u).Passwords := by
  unfold addCredential
  by_cases hu : user = ""
  · simp [hu]
  · by_cases h : u = user
    · simp [hu, h, CredMap.getZ_set]
    · simp [hu, h, CredMap.getZ_set]

theorem keys_addCredential_nodup (creds : CredMap) (user password : String)
    (h : creds.keys.Nodup) : (addCredential creds user password).keys.Nodup := by
  unfold addCredential
  split
  · exact h
  · exact CredMap.keys_set_nodup _ _ _ h

theorem passwords_credsOfServers (servers : List Server) (creds : CredMap) (u p : String) :
    p ∈ ((credsOfServers servers creds).getZ u).Passwords ↔
      p ∈ (creds.getZ u).Passwords ∨
        (u ≠ "" ∧ ∃ srv ∈ servers, srv.User = u ∧ srv.Password = p) := by
  induction servers generalizing creds with
  | nil => simp [credsOfServers]
  | cons srv rest ih =>
    have hstep : credsOfServers (srv :: rest) creds =
        credsOfServers rest (addCredential creds srv.User srv.Password) := rfl
    rw [hstep, ih, passwords_addCredential]
    by_cases h : srv.User ≠ "" ∧ u = srv.User
    · rw [if_pos h]
      obtain ⟨h1, h2⟩ := h
      subst h2
      simp only [List.mem_append, List.mem_cons, List.not_mem_nil, or_false, exists_eq_or_imp,
        true_and, ne_eq, h1, not_false_eq_true]
      constructor
      · rintro ((h | h) | h)
        · exact Or.inl h
        · exact Or.inr (Or.inl h.symm)
        · exact Or.inr (Or.inr h)
      · rintro (h | h | h)
        · exact Or.inl (Or.inl h)
        · exact Or.inl (Or.inr h.symm)
        · exact Or.inr h
    · rw [if_neg h]
      simp only [List.mem_cons, exists_eq_or_imp]
      constructor
      · rintro (h1 | ⟨h1, h2⟩)
        · exact Or.inl h1
        · exact Or.inr ⟨h1, Or.inr h2⟩
      · rintro (h1 | ⟨h1, h2 | h2⟩)
        · exact Or.inl h1
        · exact absurd ⟨h2.1 ▸ h1, h2.1.symm⟩ h
        · exact Or.inr ⟨h1, h2⟩

theorem keys_credsOfServers_nodup (servers : List Server) (creds : CredMap)
    (h : creds.keys.Nodup) : (credsOfServers servers creds).keys.Nodup := by
  induction servers generalizing creds with
  | nil => exact h
  | cons srv rest ih => exact ih _ (keys_addCredential_nodup _ _ _ h)

/-- The range loop of `NewAuthHandler` over distinct keys: every visited key
holds its de-duplicated credential, every other key is untouched. -/
theorem get_foldl_dedupCredential (keys : List String) (creds : CredMap) (u : String)
    (hk : keys.Nodup) :
    (keys.foldl dedupCredential creds).get u =
      if u ∈ keys then some (dedupPasswords (creds.getZ u)) else creds.get u := by
  induction keys generalizing creds with
  | nil => simp
  | cons k rest ih =>
    rw [List.foldl_cons, ih _ (List.nodup_cons.mp hk).2]
    have hstep : dedupCredential creds k = creds.set k (dedupPasswords (creds.getZ k)) := rfl
    by_cases hu : u = k
    · subst hu
      have hnot : u ∉ rest := (List.nodup_cons.mp hk).1
      simp [hnot, hstep, CredMap.get_set]
    · by_cases hr : u ∈ rest
      · simp [hr, hu, hstep, CredMap.getZ_set]
      · simp [hr, hu, hstep, CredMap.get_set]

/-- What `GetCredential` returns, in terms of the map before the range loop. -/
theorem GetCredential_eq (servers : List Server) (fallbackUser fallbackPassword u : String) :
    (NewAuthHandler (NewManager servers) fallbackUser fallbackPassword).GetCredential u =
      ((addCredential (credsOfServers servers CredMap.empty) fallbackUser fallbackPassword).get
        u).map dedupPasswords := by
  have hnd : (addCredential (credsOfServers servers CredMap.empty) fallbackUser
      fallbackPassword).keys.Nodup :=
    keys_addCredential_nodup _ _ _ (keys_credsOfServers_nodup _ _ (by simp [CredMap.keys, CredMap.empty]))
  have hdef : (NewAuthHandler (NewManager servers) fallbackUser fallbackPassword).GetCredential u
      = ((addCredential (credsOfServers servers CredMap.empty) fallbackUser
          fallbackPassword).keys.foldl dedupCredential
          (addCredential (credsOfServers servers CredMap.empty) fallbackUser
            fallbackPassword)).get u := rfl
  rw [hdef, get_foldl_dedupCredential _ _ _ hnd]
  by_cases hk : u ∈ (addCredential (credsOfServers servers CredMap.empty) fallbackUser
      fallbackPassword).keys
  · rw [if_pos hk]
    obtain ⟨value, hv⟩ := (CredMap.mem_keys _ _).mp hk
    simp [CredMap.getZ, hv]
  · rw [if_neg hk]
    have : (addCredential (credsOfServers servers CredMap.empty) fallbackUser
        fallbackPassword).get u = none := by
      cases hg : (addCredential (credsOfServers servers CredMap.empty) fallbackUser
        fallbackPassword).get u with
      | none => rfl
      | some value => exact absurd ((CredMap.mem_keys _ _).mpr ⟨value, hg⟩) hk
    simp [this]

/-- The passwords `GetCredential` offers for `u`: those of the descriptors with
user `u` and of the fallback pair, when `u` is not empty. -/
theorem GetCredential_mem (servers : List Server) (fallbackUser fallbackPassword u p : String) :
    (∃ c, (NewAuthHandler (NewManager servers) fallbackUser fallbackPassword).GetCredential u
        = some c ∧ p ∈ c.Passwords) ↔
      (u ≠ "" ∧ ((∃ srv ∈ servers, srv.User = u ∧ srv.Password = p) ∨
        (u = fallbackUser ∧ p = fallbackPassword))) := by
  rw [GetCredential_eq]
  have hz : p ∈ ((addCredential (credsOfServers servers CredMap.empty) fallbackUser
      fallbackPassword).getZ u).Passwords ↔
      (u ≠ "" ∧ ((∃ srv ∈ servers, srv.User = u ∧ srv.Password = p) ∨
        (u = fallbackUser ∧ p = fallbackPassword))) := by
    rw [passwords_addCredential]
    have hempty : (CredMap.empty.getZ u).Passwords = [] := rfl
    by_cases h : fallbackUser ≠ "" ∧ u = fallbackUser
    · rw [if_pos h, List.mem_append, passwords_credsOfServers, hempty]
      obtain ⟨h1, h2⟩ := h
      subst h2
      simp only [List.not_mem_nil, false_or, List.mem_singleton, ne_eq, h1, not_false_eq_true,
        true_and]
    · rw [if_neg h, passwords_credsOfServers, hempty]
      simp only [List.not_mem_nil, false_or]
      constructor
      · rintro ⟨h1, h2⟩
        exact ⟨h1, Or.inl h2⟩
      · rintro ⟨h1, h2 | h2⟩
        · exact ⟨h1, h2⟩
        · exact absurd ⟨h2.1 ▸ h1, h2.1⟩ h
  rw [← hz]
  unfold CredMap.getZ
  cases (addCredential (credsOfServers servers CredMap.empty) fallbackUser fallbackPassword).get u with
  | none => simp [Credential.zero]
  | some value => simp [dedupPasswords, mem_uniqueStrings]

/-- C3. The credential that `NewAuthHandler` stores and `GetCredential(u)`
returns has `p` among its passwords if and only if `u` is non-empty and `(u, p)`
is the user/password of some descriptor or is the fallback pair. In particular,
for a pair that matches no backend and is not the fallback pair,
`GetCredential(u)` is not-found or its passwords do not contain `p`. -/
theorem GetCredential_password_iff (servers : List Server)
    (fallbackUser fallbackPassword u p : String) :
    ((∃ c, (NewAuthHandler (NewManager servers) fallbackUser fallbackPassword).GetCredential u
        = some c ∧ p ∈ c.Passwords) ↔
      (u ≠ "" ∧ ((∃ srv ∈ servers, srv.User = u ∧ srv.Password = p) ∨
        (u = fallbackUser ∧ p = fallbackPassword)))) ∧
    ((¬ ∃ srv ∈ servers, srv.User = u ∧ srv.Password = p) →
      ¬ (u = fallbackUser ∧ p = fallbackPassword) →
      ((NewAuthHandler (NewManager servers) fallbackUser fallbackPassword).GetCredential u = none ∨
        ∃ c, (NewAuthHandler (NewManager servers) fallbackUser fallbackPassword).GetCredential u
          = some c ∧ p ∉ c.Passwords)) := by
  refine ⟨GetCredential_mem servers fallbackUser fallbackPassword u p, ?_⟩
  intro h1 h2
  cases hg : (NewAuthHandler (NewManager servers) fallbackUser fallbackPassword).GetCredential u with
  | none => exact Or.inl rfl
  | some c =>
    refine Or.inr ⟨c, rfl, ?_⟩
    intro hp
    have := (GetCredential_mem servers fallbackUser fallbackPassword u p).mp ⟨c, hg, hp⟩
    rcases this.2 with h | h
    · exact h1 h
    · exact h2 h

/-- C3 at the scenario of the specification: the pair ("app", "wrong") matches
no backend and is not the fallback pair. -/
theorem GetCredential_password_iff_witness :
    (¬ ∃ srv ∈ [mkServer "b1" "10.0.0.5" 3306 "app" "secret"],
        srv.User = "app" ∧ srv.Password = "wrong") ∧
    ¬ ("app" = "root" ∧ "wrong" = "123456") ∧
    ((NewAuthHandler (NewManager [mkServer "b1" "10.0.0.5" 3306 "app" "secret"]) "root"
        "123456").GetCredential "app" = none ∨
      ∃ c, (NewAuthHandler (NewManager [mkServer "b1" "10.0.0.5" 3306 "app" "secret"]) "root"
        "123456").GetCredential "app" = some c ∧ "wrong" ∉ c.Passwords) :=
  ⟨by decide, by decide,
    (GetCredential_password_iff [mkServer "b1" "10.0.0.5" 3306 "app" "secret"] "root" "123456"
      "app" "wrong").2 (by decide) (by decide)⟩

/-- C4. The password list of every user in the credential set built by
`NewAuthHandler` has no duplicates and is sorted in ascending string order; a
descriptor with a non-empty user, however many descriptors share its user and
password, has its password exactly once in the list of its user. -/
theorem credential_passwords_sorted_nodup (servers : List Server)
    (fallbackUser fallbackPassword : String) :
    (∀ u c, (NewAuthHandler (NewManager servers) fallbackUser fallbackPassword).GetCredential u
        = some c → c.Passwords.Nodup ∧ c.Passwords.Sorted (· ≤ ·)) ∧
    (∀ srv ∈ servers, srv.User ≠ "" →
      ∃ c, (NewAuthHandler (NewManager servers) fallbackUser fallbackPassword).GetCredential
          srv.User = some c ∧ c.Passwords.count srv.Password = 1) := by
  have hsorted : ∀ u c,
      (NewAuthHandler (NewManager servers) fallbackUser fallbackPassword).GetCredential u
        = some c → c.Passwords.Nodup ∧ c.Passwords.Sorted (· ≤ ·) := by
    intro u c hc
    rw [GetCredential_eq] at hc
    cases hg : (addCredential (credsOfServers servers CredMap.empty) fallbackUser
        fallbackPassword).get u with
    | none => rw [hg] at hc; cases hc
    | some value =>
      rw [hg] at hc
      cases hc
      exact ⟨nodup_uniqueStrings _, sorted_uniqueStrings _⟩
  refine ⟨hsorted, ?_⟩
  intro srv hsrv hne
  obtain ⟨c, hc, hp⟩ := (GetCredential_mem servers fallbackUser fallbackPassword srv.User
    srv.Password).mpr ⟨hne, Or.inl ⟨srv, hsrv, rfl, rfl⟩⟩
  exact ⟨c, hc, List.count_eq_one_of_mem (hsorted _ _ hc).1 hp⟩

/-- C4 at two backends sharing user "svc" with identical passwords. -/
theorem credential_passwords_sorted_nodup_witness :
    mkServer "b2" "h2" 3307 "svc" "pw" ∈
      [mkServer "b1" "h1" 3306 "svc" "pw", mkServer "b2" "h2" 3307 "svc" "pw"] ∧
    (mkServer "b2" "h2" 3307 "svc" "pw").User ≠ "" ∧
    ∃ c, (NewAuthHandler (NewManager
        [mkServer "b1" "h1" 3306 "svc" "pw", mkServer "b2" "h2" 3307 "svc" "pw"]) "root"
        "123456").GetCredential (mkServer "b2" "h2" 3307 "svc" "pw").User = some c ∧
      c.Passwords.count (mkServer "b2" "h2" 3307 "svc" "pw").Password = 1 :=
  ⟨by decide, by decide,
    (credential_passwords_sorted_nodup
      [mkServer "b1" "h1" 3306 "svc" "pw", mkServer "b2" "h2" 3307 "svc" "pw"] "root"
      "123456").2 (mkServer "b2" "h2" 3307 "svc" "pw") (by decide) (by decide)⟩

/-! ## The session router -/

theorem SessionInv_new (manager : Manager) : SessionInv (NewProxyHandler manager) := by
  simp [SessionInv, NewProxyHandler]

theorem SessionInv_step (h : ProxyHandler) (op : Op) (hi : SessionInv h) :
    SessionInv (h.step op) := by
  obtain ⟨h1, h2⟩ := hi
  cases op with
  | SetUpstream cfg connect useDB =>
    simp only [ProxyHandler.step, ProxyHandler.SetUpstream]
    by_cases hp : h.proxyEnabled = true
    · rw [if_pos hp]
      exact ⟨h1, h2⟩
    · rw [if_neg hp]
      cases connect with
      | error err =>
        simp only [SessionInv]
        exact ⟨by simp, fun _ => h2 (by simpa using hp)⟩
      | ok conn =>
        simp only [SessionInv]
        split
        · split <;> simp
        · simp
  | SetFallback =>
    simp only [ProxyHandler.step, ProxyHandler.SetFallback, SessionInv]
    split <;> simp
  | UseDB dbName upstreamUseDB =>
    simp only [ProxyHandler.step, ProxyHandler.UseDB, SessionInv]
    split
    · exact ⟨h1, h2⟩
    · split
      · exact ⟨h1, h2⟩
      · exact ⟨h1, h2⟩
  | Close =>
    simp only [ProxyHandler.step, ProxyHandler.Close, SessionInv]
    split
    · exact ⟨fun hm => ⟨rfl, (h1 hm).2⟩, h2⟩
    · exact ⟨fun hm => ⟨rfl, (h1 hm).2⟩, h2⟩

theorem SessionInv_run (h : ProxyHandler) (ops : List Op) (hi : SessionInv h) :
    SessionInv (h.run ops) := by
  induction ops generalizing h with
  | nil => exact hi
  | cons op rest ih => exact ih _ (SessionInv_step h op hi)

/-- Every reachable session state satisfies the invariant. -/
theorem SessionInv_of_Reachable (h : ProxyHandler) (hr : Reachable h) : SessionInv h := by
  obtain ⟨manager, ops, rfl⟩ := hr
  exact SessionInv_run _ ops (SessionInv_new manager)

theorem Match_none (EqualFold : String → String → Bool) (servers : List Server)
    (localAddr : Addr) (user password : String)
    (hno : ∀ srv ∈ servers, ¬ (srv.User = user ∧ srv.Password = password)) :
    (NewManager servers).Match EqualFold localAddr user password = none := by
  have hsame : servers.find? (sameCredentials user password) = none := by
    rw [List.find?_eq_none]
    intro srv hsrv
    simpa [sameCredentials] using hno srv hsrv
  have hstrict : servers.find? (strictMatch EqualFold (splitHostPort localAddr).1
      (splitHostPort localAddr).2 user password) = none := by
    rw [List.find?_eq_none]
    intro srv hsrv
    have := hno srv hsrv
    simp only [strictMatch, sameCredentials, Bool.and_eq_true, beq_iff_eq]
    exact fun h => this h.1
  rw [Match_unfold, matchReference, hstrict, hsame]

theorem mode_eq_Undecided (h : ProxyHandler) :
    h.mode = .Undecided ↔ h.proxyEnabled = false ∧ h.modeSet = false := by
  unfold ProxyHandler.mode
  cases h.proxyEnabled <;> cases h.modeSet <;> simp

theorem mode_eq_Proxy (h : ProxyHandler) : h.mode = .Proxy ↔ h.proxyEnabled = true := by
  unfold ProxyHandler.mode
  cases h.proxyEnabled <;> cases h.modeSet <;> simp

theorem mode_eq_Fallback (h : ProxyHandler) :
    h.mode = .Fallback ↔ h.proxyEnabled = false ∧ h.modeSet = true := by
  unfold ProxyHandler.mode
  cases h.proxyEnabled <;> cases h.modeSet <;> simp

/-- After `SetFallback` the flags say Fallback, whatever the state before. -/
theorem SetFallback_flags (h : ProxyHandler) :
    h.SetFallback.handler.modeSet = true ∧ h.SetFallback.handler.proxyEnabled = false ∧
      h.SetFallback.handler.upstream = h.upstream ∧ h.SetFallback.handler.upstreamCfg = none ∧
      h.SetFallback.handler.pendingDB = h.pendingDB := by
  simp only [ProxyHandler.SetFallback]
  split <;> simp

/-- With proxying off, `HandleQuery` is answered by the stub, whatever the
upstream would have answered. -/
theorem HandleQuery_stub (EqualFold : String → String → Bool) (ToLower : String → String)
    (h : ProxyHandler) (query : String) (execute : Except Error Result)
    (hp : h.proxyEnabled = false) :
    (h.HandleQuery EqualFold ToLower query execute).calls = [.StubHandleQuery query] ∧
      (h.HandleQuery EqualFold ToLower query execute).value =
        (h.fallback.HandleQuery EqualFold ToLower query).2 ∧
      (h.HandleQuery EqualFold ToLower query execute).handler =
        { h with fallback := (h.fallback.HandleQuery EqualFold ToLower query).1 } := by
  have hg : h.getUpstream = none := by simp [ProxyHandler.getUpstream, hp]
  unfold ProxyHandler.HandleQuery
  rw [hg]
  cases hr : (h.fallback.HandleQuery EqualFold ToLower query).2 <;> simp [hr]

/-- C5 fails as stated, in two ways: with an empty fallback user the fallback
pair is not in the credential set; with a backend that carries the fallback
pair, `OnAuthSuccess` connects upstream and the session is in Proxy mode. -/
theorem fallback_pair_counterexample :
    (NewAuthHandler (NewManager []) "" "123456").GetCredential "" = none ∧
    ((NewAuthHandler (NewManager [mkServer "b1" "" 0 "root" "123456"]) "root"
        "123456").OnAuthSuccess asciiEqualFold
        (NewProxyHandler (NewManager [mkServer "b1" "" 0 "root" "123456"]))
        { user := "root", authPassword := "123456", localAddr := Addr.nil }
        (.ok { id := 1, db := "" }) none).handler.mode = Mode.Proxy ∧
    ((NewAuthHandler (NewManager [mkServer "b1" "" 0 "root" "123456"]) "root"
        "123456").OnAuthSuccess asciiEqualFold
        (NewProxyHandler (NewManager [mkServer "b1" "" 0 "root" "123456"]))
        { user := "root", authPassword := "123456", localAddr := Addr.nil }
        (.ok { id := 1, db := "" }) none).calls = [Call.Connect (mkServer "b1" "" 0 "root" "123456")] := by
  decide

/-- C5 (amended). For every backend list and every fallback pair whose user is
not empty and which no descriptor carries: `GetCredential(fallback user)` is
found and its passwords contain the fallback password; and `OnAuthSuccess` for
a session authenticated with the fallback pair, its mode still undecided, does
what `SetFallback` does and returns no error, makes no upstream call, and leaves
the session in Fallback mode (mode decided, proxy not enabled, no upstream
connection), so that a following `HandleQuery` is answered by the local stub. -/
theorem fallback_pair_enters_Fallback (EqualFold : String → String → Bool)
    (ToLower : String → String) (servers : List Server) (fallbackUser fallbackPassword : String)
    (selector : ProxyHandler) (localAddr : Addr) (connect : Except Error Conn)
    (useDB : Option Error) (query : String) (execute : Except Error Result)
    (hu : fallbackUser ≠ "")
    (hno : ∀ srv ∈ servers, ¬ (srv.User = fallbackUser ∧ srv.Password = fallbackPassword))
    (hr : Reachable selector) (hm : selector.mode = .Undecided) :
    (∃ c, (NewAuthHandler (NewManager servers) fallbackUser fallbackPassword).GetCredential
        fallbackUser = some c ∧ fallbackPassword ∈ c.Passwords) ∧
    ((NewAuthHandler (NewManager servers) fallbackUser fallbackPassword).OnAuthSuccess EqualFold
        selector ⟨fallbackUser, fallbackPassword, localAddr⟩ connect useDB).handler =
      selector.SetFallback.handler ∧
    ((NewAuthHandler (NewManager servers) fallbackUser fallbackPassword).OnAuthSuccess EqualFold
        selector ⟨fallbackUser, fallbackPassword, localAddr⟩ connect useDB).calls =
      selector.SetFallback.calls ∧
    ((NewAuthHandler (NewManager servers) fallbackUser fallbackPassword).OnAuthSuccess EqualFold
        selector ⟨fallbackUser, fallbackPassword, localAddr⟩ connect useDB).value = none ∧
    (∀ c ∈ selector.SetFallback.calls, c.isUpstream = false) ∧
    selector.SetFallback.handler.mode = .Fallback ∧
    selector.SetFallback.handler.modeSet = true ∧
    selector.SetFallback.handler.proxyEnabled = false ∧
    selector.SetFallback.handler.upstream = none ∧
    (selector.SetFallback.handler.HandleQuery EqualFold ToLower query execute).calls =
      [.StubHandleQuery query] ∧
    (selector.SetFallback.handler.HandleQuery EqualFold ToLower query execute).value =
      (selector.SetFallback.handler.fallback.HandleQuery EqualFold ToLower query).2 := by
  have hmatch : (NewAuthHandler (NewManager servers) fallbackUser fallbackPassword).manager.Match
      EqualFold localAddr fallbackUser fallbackPassword = none :=
    Match_none EqualFold servers localAddr fallbackUser fallbackPassword hno
  have hflags := SetFallback_flags selector
  have hup : selector.upstream = none :=
    ((SessionInv_of_Reachable selector hr).1 ((mode_eq_Undecided selector).mp hm).2).1
  have hq := HandleQuery_stub EqualFold ToLower selector.SetFallback.handler query execute
    hflags.2.1
  refine ⟨(GetCredential_mem servers fallbackUser fallbackPassword fallbackUser
      fallbackPassword).mpr ⟨hu, Or.inr ⟨rfl, rfl⟩⟩, ?_, ?_, ?_, ?_,
    (mode_eq_Fallback _).mpr ⟨hflags.2.1, hflags.1⟩, hflags.1, hflags.2.1,
    hflags.2.2.1.trans hup, hq.1, hq.2.1⟩
  · simp only [AuthHandler.OnAuthSuccess, hmatch]
  · simp only [AuthHandler.OnAuthSuccess, hmatch]
  · simp only [AuthHandler.OnAuthSuccess, hmatch]
  · intro c hc
    simp only [ProxyHandler.SetFallback] at hc
    split at hc
    · simp only [List.mem_singleton] at hc
      subst hc
      rfl
    · simp at hc

/-- The amended C5 at the scenario of the specification: one backend
("app", "secret"), fallback pair ("root", "123456"), a new session. -/
theorem fallback_pair_enters_Fallback_witness :
    "root" ≠ "" ∧
    (∀ srv ∈ [mkServer "b1" "10.0.0.5" 3306 "app" "secret"],
      ¬ (srv.User = "root" ∧ srv.Password = "123456")) ∧
    (NewProxyHandler (NewManager [mkServer "b1" "10.0.0.5" 3306 "app" "secret"])).mode
      = .Undecided ∧
    (NewProxyHandler (NewManager [mkServer "b1" "10.0.0.5" 3306 "app"
      "secret"])).SetFallback.handler.mode = .Fallback :=
  ⟨by decide, by decide, by decide,
    (fallback_pair_enters_Fallback asciiEqualFold String.toLower
      [mkServer "b1" "10.0.0.5" 3306 "app" "secret"] "root" "123456"
      (NewProxyHandler (NewManager [mkServer "b1" "10.0.0.5" 3306 "app" "secret"])) Addr.nil
      (.error (.msg "unused")) none "select database()" (.error (.msg "unused")) (by decide)
      (by decide) ⟨_, [], rfl⟩ (by decide)).2.2.2.2.2.1⟩

/-- In Proxy mode `SetUpstream` returns at its first test. -/
theorem SetUpstream_of_proxyEnabled (h : ProxyHandler) (cfg : Server)
    (connect : Except Error Conn) (useDB : Option Error) (hp : h.proxyEnabled = true) :
    h.SetUpstream cfg connect useDB = ⟨h, none, []⟩ := by
  simp only [ProxyHandler.SetUpstream, hp, if_true]

/-- C6 fails as stated: on a new session `SetFallback` decides the mode
(Fallback), and a later `SetUpstream` whose connect succeeds changes it to Proxy
and stores a connection and a descriptor; a later `SetFallback` changes the mode
back to Fallback and clears the descriptor. -/
theorem mode_once_counterexample :
    ((NewProxyHandler (NewManager [])).run [Op.SetFallback]).mode = Mode.Fallback ∧
    ((NewProxyHandler (NewManager [])).run
      [Op.SetFallback, Op.SetUpstream (mkServer "b1" "" 0 "u" "p") (.ok { id := 1, db := "" })
        none]).mode = Mode.Proxy ∧
    ((NewProxyHandler (NewManager [])).run
      [Op.SetFallback, Op.SetUpstream (mkServer "b1" "" 0 "u" "p") (.ok { id := 1, db := "" })
        none]).upstream = some { id := 1, db := "" } ∧
    ((NewProxyHandler (NewManager [])).run
      [Op.SetFallback, Op.SetUpstream (mkServer "b1" "" 0 "u" "p") (.ok { id := 1, db := "" })
        none]).upstreamCfg = some (mkServer "b1" "" 0 "u" "p") ∧
    ((NewProxyHandler (NewManager [])).run
      [Op.SetFallback, Op.SetUpstream (mkServer "b1" "" 0 "u" "p") (.ok { id := 1, db := "" })
        none, Op.SetFallback]).mode = Mode.Fallback ∧
    ((NewProxyHandler (NewManager [])).run
      [Op.SetFallback, Op.SetUpstream (mkServer "b1" "" 0 "u" "p") (.ok { id := 1, db := "" })
        none, Op.SetFallback]).upstreamCfg = none := by
  decide

/-- C6 (amended). After every sequence of calls on a new session, with any
outcomes of the upstream calls: in Proxy mode a `SetUpstream` call is a no-op
(no call to `Connect`, no error, the session state unchanged); in Fallback mode
a `SetFallback` call leaves the mode, the held upstream connection and the
selected descriptor unchanged. -/
theorem mode_reentry_noop (manager : Manager) (ops : List Op) :
    (((NewProxyHandler manager).run ops).mode = .Proxy →
      ∀ cfg connect useDB,
        (((NewProxyHandler manager).run ops).SetUpstream cfg connect useDB).handler =
          (NewProxyHandler manager).run ops ∧
        (((NewProxyHandler manager).run ops).SetUpstream cfg connect useDB).value = none ∧
        (((NewProxyHandler manager).run ops).SetUpstream cfg connect useDB).calls = []) ∧
    (((NewProxyHandler manager).run ops).mode = .Fallback →
      ((NewProxyHandler manager).run ops).SetFallback.handler.mode = .Fallback ∧
      ((NewProxyHandler manager).run ops).SetFallback.handler.upstream =
        ((NewProxyHandler manager).run ops).upstream ∧
      ((NewProxyHandler manager).run ops).SetFallback.handler.upstreamCfg =
        ((NewProxyHandler manager).run ops).upstreamCfg) := by
  constructor
  · intro hm cfg connect useDB
    rw [SetUpstream_of_proxyEnabled _ cfg connect useDB ((mode_eq_Proxy _).mp hm)]
    exact ⟨rfl, rfl, rfl⟩
  · intro hm
    have hflags := SetFallback_flags ((NewProxyHandler manager).run ops)
    have hinv := SessionInv_of_Reachable _ ⟨manager, ops, rfl⟩
    have hcfg := hinv.2 ((mode_eq_Fallback _).mp hm).1
    exact ⟨(mode_eq_Fallback _).mpr ⟨hflags.2.1, hflags.1⟩, hflags.2.2.1,
      hflags.2.2.2.1.trans hcfg.symm⟩

/-- The amended C6 at a session in Proxy mode and at a session in Fallback mode. -/
theorem mode_reentry_noop_witness :
    (((NewProxyHandler (NewManager [])).run
        [Op.SetUpstream (mkServer "b1" "" 0 "u" "p") (.ok { id := 1, db := "" }) none]).mode
        = Mode.Proxy ∧
      (((NewProxyHandler (NewManager [])).run
        [Op.SetUpstream (mkServer "b1" "" 0 "u" "p") (.ok { id := 1, db := "" })
          none]).SetUpstream (mkServer "b2" "" 0 "v" "q") (.ok { id := 2, db := "" })
          none).calls = []) ∧
    (((NewProxyHandler (NewManager [])).run [Op.SetFallback]).mode = Mode.Fallback ∧
      ((NewProxyHandler (NewManager [])).run [Op.SetFallback]).SetFallback.handler.mode
        = Mode.Fallback) :=
  ⟨⟨by decide,
      ((mode_reentry_noop (NewManager [])
        [Op.SetUpstream (mkServer "b1" "" 0 "u" "p") (.ok { id := 1, db := "" }) none]).1
        (by decide) (mkServer "b2" "" 0 "v" "q") (.ok { id := 2, db := "" }) none).2.2⟩,
    ⟨by decide, ((mode_reentry_noop (NewManager []) [Op.SetFallback]).2 (by decide)).1⟩⟩

/-- C7, the code at the failing input: a database name is pending ("app"), the
connect succeeds on a connection whose database differs, and replaying the
pending name on it fails. `SetUpstream` returns the error, and the session is
in Proxy mode and holds the connection. -/
theorem SetUpstream_replay_error_enters_Proxy :
    ((((NewProxyHandler (NewManager [])).UseDB "app" none).handler.SetUpstream
        (mkServer "b1" "" 0 "u" "p") (.ok { id := 1, db := "" })
        (some (.msg "Unknown database"))).value = some (Error.msg "Unknown database")) ∧
    ((((NewProxyHandler (NewManager [])).UseDB "app" none).handler.SetUpstream
        (mkServer "b1" "" 0 "u" "p") (.ok { id := 1, db := "" })
        (some (.msg "Unknown database"))).handler.mode = Mode.Proxy) ∧
    ((((NewProxyHandler (NewManager [])).UseDB "app" none).handler.SetUpstream
        (mkServer "b1" "" 0 "u" "p") (.ok { id := 1, db := "" })
        (some (.msg "Unknown database"))).handler.proxyEnabled = true) ∧
    ((((NewProxyHandler (NewManager [])).UseDB "app" none).handler.SetUpstream
        (mkServer "b1" "" 0 "u" "p") (.ok { id := 1, db := "" })
        (some (.msg "Unknown database"))).handler.upstream = some { id := 1, db := "" }) ∧
    ((((NewProxyHandler (NewManager [])).UseDB "app" none).handler.SetUpstream
        (mkServer "b1" "" 0 "u" "p") (.ok { id := 1, db := "" })
        (some (.msg "Unknown database"))).calls =
      [Call.Connect (mkServer "b1" "" 0 "u" "p"), Call.UpstreamUseDB { id := 1, db := "" } "app"])
    := by
  decide

/-- The connect-failure path of `SetUpstream`: the error is returned, proxying
stays off and no connection is stored. -/
theorem SetUpstream_connect_error (h : ProxyHandler) (cfg : Server) (err : Error)
    (useDB : Option Error) (hp : h.proxyEnabled = false) :
    (h.SetUpstream cfg (.error err) useDB).value = some err ∧
      (h.SetUpstream cfg (.error err) useDB).handler.proxyEnabled = false ∧
      (h.SetUpstream cfg (.error err) useDB).handler.upstream = h.upstream := by
  simp [ProxyHandler.SetUpstream, hp]

/-- A `SetUpstream` call that starts with proxying off and returns no error
has connected: it made exactly one `Connect` call, turned proxying on and
stored the connection that `Connect` returned. -/
theorem SetUpstream_success (h : ProxyHandler) (cfg : Server) (connect : Except Error Conn)
    (useDB : Option Error) (hp : h.proxyEnabled = false)
    (hok : (h.SetUpstream cfg connect useDB).value = none) :
    ∃ conn, connect = .ok conn ∧
      (h.SetUpstream cfg connect useDB).handler.proxyEnabled = true ∧
      (h.SetUpstream cfg connect useDB).handler.upstream = some conn ∧
      countConnect (h.SetUpstream cfg connect useDB).calls = 1 := by
  cases connect with
  | error err => simp [ProxyHandler.SetUpstream, hp] at hok
  | ok conn =>
    refine ⟨conn, rfl, ?_⟩
    simp only [ProxyHandler.SetUpstream, hp]
    by_cases hd : (h.pendingDB != "" && h.pendingDB != conn.db) = true
    · cases useDB with
      | none => simp [hd, countConnect]
      | some err => simp [ProxyHandler.SetUpstream, hp, hd] at hok
    · simp [hd, countConnect]

/-- C8. For every session with proxying off (a fresh session among them) and
every descriptor for which the first `SetUpstream` call succeeds, a second
`SetUpstream` call with the same descriptor returns no error without calling
`Connect`: over the two calls exactly one upstream connection is opened, and
the session still holds the connection opened by the first call. -/
theorem SetUpstream_twice_one_connection (h : ProxyHandler) (cfg : Server)
    (connect connect2 : Except Error Conn) (useDB useDB2 : Option Error)
    (hp : h.proxyEnabled = false)
    (hok : (h.SetUpstream cfg connect useDB).value = none) :
    ((h.SetUpstream cfg connect useDB).handler.SetUpstream cfg connect2 useDB2).value = none ∧
    ((h.SetUpstream cfg connect useDB).handler.SetUpstream cfg connect2 useDB2).calls = [] ∧
    countConnect ((h.SetUpstream cfg connect useDB).calls ++
      ((h.SetUpstream cfg connect useDB).handler.SetUpstream cfg connect2 useDB2).calls) = 1 ∧
    ∃ conn, connect = .ok conn ∧
      (h.SetUpstream cfg connect useDB).handler.upstream = some conn ∧
      ((h.SetUpstream cfg connect useDB).handler.SetUpstream cfg connect2 useDB2).handler.upstream
        = some conn := by
  obtain ⟨conn, hc, hen, hup, hcount⟩ := SetUpstream_success h cfg connect useDB hp hok
  rw [SetUpstream_of_proxyEnabled _ cfg connect2 useDB2 hen]
  exact ⟨rfl, rfl, by simpa using hcount, conn, hc, hup, hup⟩

/-- C8 at a new session whose connect succeeds. -/
theorem SetUpstream_twice_one_connection_witness :
    (NewProxyHandler (NewManager [])).proxyEnabled = false ∧
    ((NewProxyHandler (NewManager [])).SetUpstream (mkServer "b1" "" 0 "u" "p")
      (.ok { id := 1, db := "" }) none).value = none ∧
    countConnect (((NewProxyHandler (NewManager [])).SetUpstream (mkServer "b1" "" 0 "u" "p")
        (.ok { id := 1, db := "" }) none).calls ++
      (((NewProxyHandler (NewManager [])).SetUpstream (mkServer "b1" "" 0 "u" "p")
        (.ok { id := 1, db := "" }) none).handler.SetUpstream (mkServer "b1" "" 0 "u" "p")
        (.ok { id := 2, db := "" }) none).calls) = 1 :=
  ⟨by decide, by decide,
    (SetUpstream_twice_one_connection (NewProxyHandler (NewManager []))
      (mkServer "b1" "" 0 "u" "p") (.ok { id := 1, db := "" }) (.ok { id := 2, db := "" })
      none none (by decide) (by decide)).2.2.1⟩

/-- C9. For every database name, on a new session `UseDB(name)` followed by
`SetFallback()` leaves the current database of the local stub equal to `name`;
the two calls invoke `UseDB` of the stub at most once, make no other call, and
any such call passes `name`. -/
theorem UseDB_then_SetFallback (manager : Manager) (name : String)
    (upstreamUseDB : Option Error) :
    ((NewProxyHandler manager).UseDB name upstreamUseDB).handler.SetFallback.handler.fallback.currentDB
      = name ∧
    countStubUseDB (((NewProxyHandler manager).UseDB name upstreamUseDB).calls ++
      ((NewProxyHandler manager).UseDB name upstreamUseDB).handler.SetFallback.calls) ≤ 1 ∧
    (∀ c ∈ ((NewProxyHandler manager).UseDB name upstreamUseDB).calls ++
        ((NewProxyHandler manager).UseDB name upstreamUseDB).handler.SetFallback.calls,
      c = Call.StubUseDB name) ∧
    ((NewProxyHandler manager).UseDB name upstreamUseDB).handler.SetFallback.handler.mode
      = .Fallback := by
  have h1 : (NewProxyHandler manager).UseDB name upstreamUseDB =
      ⟨{ NewProxyHandler manager with pendingDB := name }, none, []⟩ := by
    simp [ProxyHandler.UseDB, NewProxyHandler]
  rw [h1]
  by_cases hn : name = ""
  · subst hn
    simp [ProxyHandler.SetFallback, NewProxyHandler, countStubUseDB, ProxyHandler.mode]
  · simp [ProxyHandler.SetFallback, NewProxyHandler, countStubUseDB, ProxyHandler.mode, hn,
      MyHandler.UseDB]

/-- The fields `UseDB` leaves alone, and the one it sets. -/
theorem UseDB_fields (h : ProxyHandler) (name : String) (upstreamUseDB : Option Error) :
    (h.UseDB name upstreamUseDB).handler.pendingDB = name ∧
      (h.UseDB name upstreamUseDB).handler.proxyEnabled = h.proxyEnabled ∧
      (h.UseDB name upstreamUseDB).handler.modeSet = h.modeSet ∧
      (h.UseDB name upstreamUseDB).handler.upstream = h.upstream ∧
      (h.UseDB name upstreamUseDB).handler.upstreamCfg = h.upstreamCfg := by
  simp only [ProxyHandler.UseDB]
  cases h.upstream with
  | some conn => exact ⟨rfl, rfl, rfl, rfl, rfl⟩
  | none =>
    by_cases hc : (h.modeSet && !h.proxyEnabled) = true
    · simp [hc]
    · simp [hc]

/-- C10 fails as stated: after a successful `SetUpstream` and a `Close` the
session is reachable and its mode is decided (Proxy), and `UseDB` forwards the
name to neither responder. -/
theorem UseDB_forwarding_counterexample :
    ((NewProxyHandler (NewManager [])).run
      [Op.SetUpstream (mkServer "b1" "" 0 "u" "p") (.ok { id := 1, db := "" }) none,
        Op.Close]).mode = Mode.Proxy ∧
    (((NewProxyHandler (NewManager [])).run
      [Op.SetUpstream (mkServer "b1" "" 0 "u" "p") (.ok { id := 1, db := "" }) none,
        Op.Close]).UseDB "app" none).calls = [] ∧
    (((NewProxyHandler (NewManager [])).run
      [Op.SetUpstream (mkServer "b1" "" 0 "u" "p") (.ok { id := 1, db := "" }) none,
        Op.Close]).UseDB "app" none).handler.pendingDB = "app" := by
  decide

/-- C10 (amended). For every session state reachable by `SetUpstream`,
`SetFallback`, `UseDB` and `Close`, `UseDB(name)` records `name` as the pending
database and does not change the mode; in Proxy mode with the upstream
connection held it forwards `name` to that connection, and to nothing else,
and returns its answer; in Proxy mode with no connection held it forwards to
neither responder; in Fallback mode with no upstream connection held it
forwards `name` to the local stub, and to nothing else, whose current database
becomes `name`; in Undecided mode it only records `name` and forwards to
neither. -/
theorem UseDB_forwarding (h : ProxyHandler) (name : String) (upstreamUseDB : Option Error)
    (hr : Reachable h) :
    (h.UseDB name upstreamUseDB).handler.pendingDB = name ∧
    (h.UseDB name upstreamUseDB).handler.mode = h.mode ∧
    (∀ conn, h.mode = .Proxy → h.upstream = some conn →
      (h.UseDB name upstreamUseDB).calls = [.UpstreamUseDB conn name] ∧
      (h.UseDB name upstreamUseDB).value = upstreamUseDB ∧
      (h.UseDB name upstreamUseDB).handler = { h with pendingDB := name }) ∧
    (h.mode = .Proxy → h.upstream = none →
      (h.UseDB name upstreamUseDB).calls = [] ∧
      (h.UseDB name upstreamUseDB).value = none ∧
      (h.UseDB name upstreamUseDB).handler = { h with pendingDB := name }) ∧
    (h.mode = .Fallback → h.upstream = none →
      (h.UseDB name upstreamUseDB).calls = [.StubUseDB name] ∧
      (h.UseDB name upstreamUseDB).value = none ∧
      (h.UseDB name upstreamUseDB).handler.fallback.currentDB = name) ∧
    (h.mode = .Undecided →
      (h.UseDB name upstreamUseDB).calls = [] ∧
      (h.UseDB name upstreamUseDB).value = none ∧
      (h.UseDB name upstreamUseDB).handler = { h with pendingDB := name }) := by
  have hinv := SessionInv_of_Reachable h hr
  refine ⟨?_, ?_, ?_, ?_, ?_, ?_⟩
  · exact (UseDB_fields h name upstreamUseDB).1
  · have hf := UseDB_fields h name upstreamUseDB
    simp only [ProxyHandler.mode, hf.2.1, hf.2.2.1]
  · intro conn _ hup
    simp [ProxyHandler.UseDB, hup]
  · intro hm hup
    have hp := (mode_eq_Proxy h).mp hm
    simp [ProxyHandler.UseDB, hup, hp]
  · intro hm hup
    obtain ⟨hp, hs⟩ := (mode_eq_Fallback h).mp hm
    simp [ProxyHandler.UseDB, hup, hp, hs, MyHandler.UseDB]
  · intro hm
    obtain ⟨hp, hs⟩ := (mode_eq_Undecided h).mp hm
    have hup := (hinv.1 hs).1
    simp [ProxyHandler.UseDB, hup, hp, hs]

/-- The amended C10 at a session in Fallback mode. -/
theorem UseDB_forwarding_witness :
    ((NewProxyHandler (NewManager [])).run [Op.SetFallback]).mode = Mode.Fallback ∧
    ((NewProxyHandler (NewManager [])).run [Op.SetFallback]).upstream = none ∧
    (((NewProxyHandler (NewManager [])).run [Op.SetFallback]).UseDB "app" none).calls
      = [Call.StubUseDB "app"] ∧
    (((NewProxyHandler (NewManager [])).run [Op.SetFallback]).UseDB "app"
      none).handler.fallback.currentDB = "app" :=
  ⟨by decide, by decide,
    ((UseDB_forwarding ((NewProxyHandler (NewManager [])).run [Op.SetFallback]) "app" none
      ⟨NewManager [], [Op.SetFallback], rfl⟩).2.2.2.2.1 (by decide) (by decide)).1,
    ((UseDB_forwarding ((NewProxyHandler (NewManager [])).run [Op.SetFallback]) "app" none
      ⟨NewManager [], [Op.SetFallback], rfl⟩).2.2.2.2.1 (by decide) (by decide)).2.2⟩

/-! ## ProxyHandler.Close -/

theorem countClose_append (id : Nat) (a b : List Call) :
    countClose id (a ++ b) = countClose id a + countClose id b := by
  simp [countClose, List.countP_append]

theorem countClose_SetUpstream (id : Nat) (h : ProxyHandler) (cfg : Server)
    (connect : Except Error Conn) (useDB : Option Error) :
    countClose id (h.SetUpstream cfg connect useDB).calls = 0 := by
  simp only [ProxyHandler.SetUpstream]
  split
  · rfl
  · split
    · rfl
    · split
      · split <;> rfl
      · rfl

theorem countClose_SetFallback (id : Nat) (h : ProxyHandler) :
    countClose id h.SetFallback.calls = 0 := by
  simp only [ProxyHandler.SetFallback]
  split <;> rfl

theorem countClose_UseDB (id : Nat) (h : ProxyHandler) (name : String)
    (upstreamUseDB : Option Error) : countClose id (h.UseDB name upstreamUseDB).calls = 0 := by
  simp only [ProxyHandler.UseDB]
  split
  · rfl
  · split <;> rfl

/-- What `SetUpstream` holds afterwards: the connection just opened, if it
opened one, else what it held before. -/
theorem heldIds_SetUpstream (h : ProxyHandler) (cfg : Server) (connect : Except Error Conn)
    (useDB : Option Error) :
    (h.SetUpstream cfg connect useDB).handler.heldIds =
      if h.proxyEnabled then h.heldIds
      else match connect with
        | .ok conn => [conn.id]
        | .error _ => h.heldIds := by
  simp only [ProxyHandler.SetUpstream]
  split
  · rfl
  · cases connect with
    | error err => rfl
    | ok conn =>
      simp only
      split
      · split <;> rfl
      · rfl

theorem heldIds_SetFallback (h : ProxyHandler) : h.SetFallback.handler.heldIds = h.heldIds := by
  simp only [ProxyHandler.heldIds, (SetFallback_flags h).2.2.1]

theorem heldIds_UseDB (h : ProxyHandler) (name : String) (upstreamUseDB : Option Error) :
    (h.UseDB name upstreamUseDB).handler.heldIds = h.heldIds := by
  simp only [ProxyHandler.heldIds, (UseDB_fields h name upstreamUseDB).2.2.2.1]

/-- What `Close` does, by the connection held. -/
theorem Close_eq (h : ProxyHandler) :
    h.Close.value = none ∧ h.Close.handler = { h with upstream := none } ∧
      h.Close.calls = (match h.upstream with
        | some conn => [Call.UpstreamClose conn]
        | none => []) := by
  simp only [ProxyHandler.Close]
  cases h.upstream <;> exact ⟨rfl, rfl, rfl⟩

/-- When the connection held and the connections opened later are pairwise
distinct, a sequence of calls closes every connection at most once, and closes
only connections that were held or opened. -/
theorem close_once_aux (h : ProxyHandler) (ops : List Op) (id : Nat)
    (hn : (h.heldIds ++ (h.opened ops).map Conn.id).Nodup) :
    countClose id (h.trace ops) ≤ 1 ∧
      (id ∉ h.heldIds ++ (h.opened ops).map Conn.id → countClose id (h.trace ops) = 0) := by
  induction ops generalizing h with
  | nil => simp [ProxyHandler.trace, countClose]
  | cons op rest ih =>
    cases op with
    | SetUpstream cfg connect useDB =>
      simp only [ProxyHandler.trace, ProxyHandler.opened, countClose_append,
        countClose_SetUpstream, Nat.zero_add] at hn ⊢
      have hheld := heldIds_SetUpstream h cfg connect useDB
      by_cases hp : h.proxyEnabled = true
      · simp only [hp, if_true, List.nil_append] at hn hheld ⊢
        rw [← hheld] at hn ⊢
        exact ih _ hn
      · simp only [hp] at hn hheld ⊢
        cases connect with
        | error err =>
          simp only [List.nil_append, Bool.false_eq_true, if_false] at hn hheld ⊢
          rw [← hheld] at hn ⊢
          exact ih _ hn
        | ok conn =>
          simp only [Bool.false_eq_true, if_false, List.singleton_append, List.map_cons]
            at hn hheld ⊢
          have hn2 : ((h.SetUpstream cfg (.ok conn) useDB).handler.heldIds ++
              ((h.SetUpstream cfg (.ok conn) useDB).handler.opened rest).map Conn.id).Nodup := by
            rw [hheld]
            exact hn.of_append_right
          obtain ⟨h1, h2⟩ := ih _ hn2
          refine ⟨h1, fun hid => h2 ?_⟩
          rw [hheld]
          intro hmem
          exact hid (List.mem_append_right _ hmem)
    | SetFallback =>
      simp only [ProxyHandler.trace, ProxyHandler.opened, countClose_append,
        countClose_SetFallback, Nat.zero_add] at hn ⊢
      rw [← heldIds_SetFallback h] at hn ⊢
      exact ih _ hn
    | UseDB dbName upstreamUseDB =>
      simp only [ProxyHandler.trace, ProxyHandler.opened, countClose_append,
        countClose_UseDB, Nat.zero_add] at hn ⊢
      rw [← heldIds_UseDB h dbName upstreamUseDB] at hn ⊢
      exact ih _ hn
    | Close =>
      simp only [ProxyHandler.trace, ProxyHandler.opened, countClose_append] at hn ⊢
      obtain ⟨_, hh, hc⟩ := Close_eq h
      have hheld : h.Close.handler.heldIds = [] := by rw [hh]; rfl
      rw [hc]
      cases hup : h.upstream with
      | none =>
        have h0 : h.heldIds = [] := by simp [ProxyHandler.heldIds, hup]
        rw [h0] at hn ⊢
        have := ih h.Close.handler (by rw [hheld]; exact hn)
        rw [hheld] at this
        simpa [countClose] using this
      | some conn =>
        have h0 : h.heldIds = [conn.id] := by simp [ProxyHandler.heldIds, hup]
        rw [h0] at hn ⊢
        simp only [List.singleton_append, List.nodup_cons] at hn
        obtain ⟨h1, h2⟩ := ih h.Close.handler (by rw [hheld]; exact hn.2)
        rw [hheld, List.nil_append] at h2
        by_cases hid : conn.id = id
        · subst hid
          have hz := h2 hn.1
          have hone : countClose conn.id [Call.UpstreamClose conn] = 1 := by
            simp [countClose]
          simp only [hone, hz]
          exact ⟨Nat.le_refl _, fun hnot => absurd (List.mem_append_left _
            (List.mem_singleton_self _)) hnot⟩
        · have hone : countClose id [Call.UpstreamClose conn] = 0 := by
            simp [countClose, hid]
          simp only [hone, Nat.zero_add]
          refine ⟨h1, fun hnot => h2 ?_⟩
          intro hmem
          exact hnot (List.mem_append_right _ hmem)

theorem neverProxy_head (h : ProxyHandler) (ops : List Op) (hn : h.neverProxy ops = true) :
    h.proxyEnabled = false := by
  cases ops with
  | nil => simpa [ProxyHandler.neverProxy] using hn
  | cons op rest =>
    simp only [ProxyHandler.neverProxy, Bool.and_eq_true, Bool.not_eq_true'] at hn
    exact hn.1

/-- A call that leaves proxying off stores no connection. -/
theorem step_upstream_none (h : ProxyHandler) (op : Op) (hup : h.upstream = none)
    (hp : (h.step op).proxyEnabled = false) : (h.step op).upstream = none := by
  cases op with
  | SetUpstream cfg connect useDB =>
    simp only [ProxyHandler.step] at hp ⊢
    by_cases hpe : h.proxyEnabled = true
    · rw [SetUpstream_of_proxyEnabled h cfg connect useDB hpe]
      exact hup
    · have hpe2 : h.proxyEnabled = false := by simpa using hpe
      cases connect with
      | error err =>
        rw [(SetUpstream_connect_error h cfg err useDB hpe2).2.2]
        exact hup
      | ok conn =>
        by_cases hok : (h.SetUpstream cfg (.ok conn) useDB).value = none
        · obtain ⟨c, _, hen, _, _⟩ := SetUpstream_success h cfg (.ok conn) useDB hpe2 hok
          rw [hen] at hp
          cases hp
        · simp only [ProxyHandler.SetUpstream, hpe2] at hp
          revert hp
          simp only [Bool.false_eq_true, if_false]
          split
          · split <;> simp
          · simp
  | SetFallback =>
    simp only [ProxyHandler.step]
    rw [(SetFallback_flags h).2.2.1]
    exact hup
  | UseDB dbName upstreamUseDB =>
    simp only [ProxyHandler.step]
    rw [(UseDB_fields h dbName upstreamUseDB).2.2.2.1]
    exact hup
  | Close =>
    simp only [ProxyHandler.step]
    rw [(Close_eq h).2.1]

/-- A session that never enters Proxy mode never holds a connection. -/
theorem neverProxy_upstream (h : ProxyHandler) (ops : List Op) (hup : h.upstream = none)
    (hn : h.neverProxy ops = true) : (h.run ops).upstream = none := by
  induction ops generalizing h with
  | nil => exact hup
  | cons op rest ih =>
    simp only [ProxyHandler.neverProxy, Bool.and_eq_true] at hn
    exact ih (h.step op) (step_upstream_none h op hup (neverProxy_head _ _ hn.2)) hn.2

/-- With no connection held, `Close` does nothing. -/
theorem Close_of_no_upstream (h : ProxyHandler) (hup : h.upstream = none) :
    h.Close.calls = [] ∧ h.Close.handler = h ∧ h.Close.value = none := by
  obtain ⟨h1, h2, h3⟩ := Close_eq h
  refine ⟨?_, ?_, h1⟩
  · rw [h3, hup]
  · rw [h2, ← hup]

/-- C11. For every session state `Close` returns no error, closes the held
upstream connection if there is one, and clears the handle, leaving the other
fields alone; a second `Close` closes nothing and changes nothing; in any
sequence of calls on a new session in which every `Connect` returns a
connection of its own, each upstream connection is closed at most once; and
`Close` on a session that never entered Proxy mode closes nothing and leaves
the session state unchanged. -/
theorem Close_idempotent (h : ProxyHandler) (manager : Manager) (ops : List Op) :
    h.Close.value = none ∧
    h.Close.handler = { h with upstream := none } ∧
    (∀ conn, h.upstream = some conn → h.Close.calls = [.UpstreamClose conn]) ∧
    (h.upstream = none → h.Close.calls = [] ∧ h.Close.handler = h) ∧
    (h.Close.handler.Close.calls = [] ∧ h.Close.handler.Close.handler = h.Close.handler ∧
      h.Close.handler.Close.value = none) ∧
    ((((NewProxyHandler manager).opened ops).map Conn.id).Nodup →
      ∀ id, countClose id ((NewProxyHandler manager).trace ops) ≤ 1) ∧
    ((NewProxyHandler manager).neverProxy ops = true →
      ((NewProxyHandler manager).run ops).Close.calls = [] ∧
      ((NewProxyHandler manager).run ops).Close.handler = (NewProxyHandler manager).run ops ∧
      ((NewProxyHandler manager).run ops).Close.value = none) := by
  obtain ⟨h1, h2, h3⟩ := Close_eq h
  refine ⟨h1, h2, ?_, ?_, ?_, ?_, ?_⟩
  · intro conn hup
    rw [h3, hup]
  · intro hup
    exact ⟨(Close_of_no_upstream h hup).1, (Close_of_no_upstream h hup).2.1⟩
  · exact Close_of_no_upstream h.Close.handler (by rw [h2])
  · intro hn id
    exact (close_once_aux (NewProxyHandler manager) ops id (by simpa [ProxyHandler.heldIds,
      NewProxyHandler] using hn)).1
  · intro hn
    exact Close_of_no_upstream _ (neverProxy_upstream _ ops rfl hn)

/-- C11 at a session that connects, closes twice, falls back, connects again
and closes, and at a session that only ever falls back. -/
theorem Close_idempotent_witness :
    ((((NewProxyHandler (NewManager [])).opened
        [Op.SetUpstream (mkServer "b1" "" 0 "u" "p") (.ok { id := 1, db := "" }) none, Op.Close,
          Op.Close, Op.SetFallback,
          Op.SetUpstream (mkServer "b1" "" 0 "u" "p") (.ok { id := 2, db := "" }) none,
          Op.Close]).map Conn.id).Nodup ∧
      countClose 1 ((NewProxyHandler (NewManager [])).trace
        [Op.SetUpstream (mkServer "b1" "" 0 "u" "p") (.ok { id := 1, db := "" }) none, Op.Close,
          Op.Close, Op.SetFallback,
          Op.SetUpstream (mkServer "b1" "" 0 "u" "p") (.ok { id := 2, db := "" }) none,
          Op.Close]) ≤ 1) ∧
    ((NewProxyHandler (NewManager [])).neverProxy [Op.UseDB "app" none, Op.SetFallback] = true ∧
      ((NewProxyHandler (NewManager [])).run [Op.UseDB "app" none, Op.SetFallback]).Close.calls
        = []) :=
  ⟨⟨by decide,
      (Close_idempotent (NewProxyHandler (NewManager [])) (NewManager [])
        [Op.SetUpstream (mkServer "b1" "" 0 "u" "p") (.ok { id := 1, db := "" }) none, Op.Close,
          Op.Close, Op.SetFallback,
          Op.SetUpstream (mkServer "b1" "" 0 "u" "p") (.ok { id := 2, db := "" }) none,
          Op.Close]).2.2.2.2.2.1 (by decide) 1⟩,
    ⟨by decide,
      ((Close_idempotent (NewProxyHandler (NewManager [])) (NewManager [])
        [Op.UseDB "app" none, Op.SetFallback]).2.2.2.2.2.2 (by decide)).1⟩⟩

/-! ## ProxyHandler.HandleOtherCommand -/

/-- C12 fails as stated: for an opcode off the allow-list the error is the same
whatever the payload, so it does not carry the payload; it carries the opcode. -/
theorem HandleOtherCommand_counterexample :
    ((NewProxyHandler (NewManager [])).HandleOtherCommand 3 [1, 2, 3]).value =
      some (Error.mysql 1105 "command 3 is not supported now") ∧
    ((NewProxyHandler (NewManager [])).HandleOtherCommand 3 []).value =
      ((NewProxyHandler (NewManager [])).HandleOtherCommand 3 [1, 2, 3]).value := by
  decide

/-- C12 (amended). For every opcode and payload, `HandleOtherCommand` returns
success without changing the session state or calling a collaborator when the
opcode is on the allow-list (COM_SET_OPTION); for every other opcode it leaves
the session state unchanged and fails with the generic error of code
ER_UNKNOWN_ERROR whose message, "command <opcode> is not supported now", carries
the opcode in decimal and not the payload: the error is the same for every
payload. -/
theorem HandleOtherCommand_result (h : ProxyHandler) (cmd : Nat) (data : List Nat) :
    (cmd = COM_SET_OPTION →
      (h.HandleOtherCommand cmd data).value = none ∧
      (h.HandleOtherCommand cmd data).handler = h ∧
      (h.HandleOtherCommand cmd data).calls = []) ∧
    (cmd ≠ COM_SET_OPTION →
      (h.HandleOtherCommand cmd data).value =
        some (NewError ER_UNKNOWN_ERROR
          ("command " ++ toString cmd ++ " is not supported now")) ∧
      (h.HandleOtherCommand cmd data).handler = h ∧
      (h.HandleOtherCommand cmd data).calls = [] ∧
      ∀ data2, (h.HandleOtherCommand cmd data2).value = (h.HandleOtherCommand cmd data).value) := by
  constructor
  · intro hc
    simp [ProxyHandler.HandleOtherCommand, hc]
  · intro hc
    simp [ProxyHandler.HandleOtherCommand, hc]

/-- The amended C12 at the allow-listed opcode and at opcode 3. -/
theorem HandleOtherCommand_result_witness :
    (COM_SET_OPTION = COM_SET_OPTION ∧
      ((NewProxyHandler (NewManager [])).HandleOtherCommand COM_SET_OPTION [1]).value = none) ∧
    (3 ≠ COM_SET_OPTION ∧
      ((NewProxyHandler (NewManager [])).HandleOtherCommand 3 [1]).value =
        some (NewError ER_UNKNOWN_ERROR ("command " ++ toString 3 ++ " is not supported now"))) :=
  ⟨⟨rfl, ((HandleOtherCommand_result (NewProxyHandler (NewManager [])) COM_SET_OPTION [1]).1
      rfl).1⟩,
    ⟨by decide, ((HandleOtherCommand_result (NewProxyHandler (NewManager [])) 3 [1]).2
      (by decide)).1⟩⟩

/-! ## MyHandler.HandleQuery -/

theorem trimChars_eq_rdropWhile (p : Char → Bool) (cs : List Char) :
    trimChars p cs = (cs.dropWhile p).rdropWhile p := rfl

theorem length_trimChars_le (p : Char → Bool) (cs : List Char) :
    (trimChars p cs).length ≤ cs.length := by
  rw [trimChars_eq_rdropWhile]
  exact (List.rdropWhile_prefix p _).length_le.trans (List.dropWhile_suffix p).length_le

theorem length_TrimSpace_le (s : String) : (TrimSpace s).length ≤ s.length :=
  length_trimChars_le isSpace s.data

theorem HasSuffix_iff (s suffix : String) :
    HasSuffix s suffix = true ↔ suffix.data <:+ s.data := by
  simp [HasSuffix]

/-- Removing a one-character suffix that is there shortens the text. -/
theorem length_TrimSuffix_lt (s : String) (h : HasSuffix s ";" = true) :
    (TrimSuffix s ";").length < s.length := by
  have hlen : 1 ≤ s.data.length := by
    have := ((HasSuffix_iff s ";").mp h).length_le
    simpa using this
  simp only [TrimSuffix, h, if_true]
  show (s.data.take (s.data.length - (";" : String).data.length)).length < s.data.length
  rw [List.length_take]
  have : (";" : String).data.length = 1 := rfl
  omega

/-- The loop of `normalizeQuery` ends by its own test when the fuel is at least
the length of the text: the result does not end in a semicolon. -/
theorem normalizeLoop_no_suffix (fuel : Nat) (trimmed : String) (hf : trimmed.length ≤ fuel) :
    HasSuffix (normalizeLoop fuel trimmed) ";" = false := by
  induction fuel generalizing trimmed with
  | zero =>
    have hnil : trimmed.data = [] := List.length_eq_zero.mp (Nat.le_zero.mp hf)
    simp [normalizeLoop, HasSuffix, hnil]
  | succ n ih =>
    unfold normalizeLoop
    by_cases hs : HasSuffix trimmed ";" = true
    · rw [if_pos hs]
      apply ih
      have h1 := length_TrimSpace_le (TrimSuffix trimmed ";")
      have h2 := length_TrimSuffix_lt trimmed hs
      omega
    · rw [if_neg hs]
      simpa using hs

/-- The result of `normalizeQuery` never ends in a semicolon: the fuel of the
loop is never exhausted. -/
theorem normalizeQuery_no_suffix (query : String) :
    HasSuffix (normalizeQuery query) ";" = false :=
  normalizeLoop_no_suffix _ _ (Nat.le_refl _)

/-- Trailing white space after a text that ends in another character is
removed from the end, and nothing else is. -/
theorem rdropWhile_append_core (core post : List Char) (hcore : core ≠ [])
    (hlast : isSpace (core.getLast hcore) = false) :
    (core ++ post).rdropWhile isSpace = core ++ post.rdropWhile isSpace := by
  induction post using List.reverseRecOn with
  | nil =>
    rw [List.append_nil, List.rdropWhile_nil, List.append_nil, List.rdropWhile_eq_self_iff]
    intro hl
    simp [hlast]
  | append_singleton q x ih =>
    rw [← List.append_assoc, List.rdropWhile_concat, List.rdropWhile_concat]
    by_cases hx : isSpace x = true
    · rw [if_pos hx, if_pos hx, ih]
    · rw [if_neg hx, if_neg hx, List.append_assoc]

/-- The call `strings.TrimSpace` on a text that starts and ends in other
characters, followed by `post`. -/
theorem trimChars_core_append (core post : List Char) (hcore : core ≠ [])
    (hfirst : isSpace (core.head hcore) = false)
    (hlast : isSpace (core.getLast hcore) = false) :
    trimChars isSpace (core ++ post) = core ++ post.rdropWhile isSpace := by
  rw [trimChars_eq_rdropWhile]
  have hdrop : (core ++ post).dropWhile isSpace = core ++ post := by
    cases core with
    | nil => exact absurd rfl hcore
    | cons a rest =>
      simp only [List.head_cons] at hfirst
      simp [List.dropWhile_cons, hfirst]
  rw [hdrop, rdropWhile_append_core core post hcore hlast]

/-- The loop of `normalizeQuery` on a text followed by white space and
semicolons: all of them are removed. -/
theorem normalizeLoop_core (core : List Char) (hcore : core ≠ [])
    (hfirst : isSpace (core.head hcore) = false)
    (hlast : isSpace (core.getLast hcore) = false) (hsemi : core.getLast hcore ≠ ';')
    (fuel : Nat) (post : List Char) (hf : post.length ≤ fuel)
    (hpost : ∀ c ∈ post, isSpace c = true ∨ c = ';')
    (hend : post.rdropWhile isSpace = post) :
    normalizeLoop fuel ⟨core ++ post⟩ = ⟨core⟩ := by
  induction fuel generalizing post with
  | zero =>
    have hnil : post = [] := List.length_eq_zero.mp (Nat.le_zero.mp hf)
    simp [normalizeLoop, hnil]
  | succ n ih =>
    unfold normalizeLoop
    rcases List.eq_nil_or_concat post with hnil | ⟨q, x, hq⟩
    · subst hnil
      have hno : HasSuffix ⟨core ++ []⟩ ";" = false := by
        rw [List.append_nil]
        cases hs : HasSuffix ⟨core⟩ ";" with
        | false => rfl
        | true =>
          exfalso
          obtain ⟨t, ht⟩ := (HasSuffix_iff _ _).mp hs
          have hl : core.getLast hcore = ';' := by
            have h2 : core = t ++ [';'] := ht.symm
            simp [h2]
          exact hsemi hl
      rw [hno]
      simp
    · rw [List.concat_eq_append] at hq
      subst hq
      have hx : isSpace x = false := by
        rw [List.rdropWhile_concat] at hend
        cases hsx : isSpace x with
        | false => rfl
        | true =>
          rw [if_pos hsx] at hend
          have := (List.rdropWhile_prefix isSpace q).length_le
          rw [hend] at this
          simp at this
      have hxs : x = ';' := by
        rcases hpost x (by simp) with h | h
        · rw [hx] at h
          cases h
        · exact h
      subst hxs
      have hyes : HasSuffix ⟨core ++ (q ++ [';'])⟩ ";" = true := by
        rw [HasSuffix_iff]
        exact ⟨core ++ q, by simp⟩
      rw [if_pos hyes]
      have htrim : TrimSuffix ⟨core ++ (q ++ [';'])⟩ ";" = ⟨core ++ q⟩ := by
        simp only [TrimSuffix, hyes, if_true]
        congr 1
        have hlen : (";" : String).data.length = 1 := rfl
        rw [hlen, ← List.append_assoc, List.length_append, List.length_singleton,
          Nat.add_sub_cancel, List.take_left']
        rfl
      have hspace : TrimSpace ⟨core ++ q⟩ = ⟨core ++ q.rdropWhile isSpace⟩ := by
        simp only [TrimSpace]
        rw [trimChars_core_append core q hcore hfirst hlast]
      rw [htrim, hspace]
      apply ih
      · have := (List.rdropWhile_prefix isSpace q).length_le
        simp only [List.length_append, List.length_singleton] at hf
        omega
      · intro c hc
        exact hpost c (List.mem_append_left _ ((List.rdropWhile_prefix isSpace q).subset hc))
      · exact List.rdropWhile_idempotent isSpace q

/-- What `normalizeQuery` computes: of a text that starts with a character
other than white space and ends with a character other than white space and
the semicolon, preceded by white space and followed by white space and
semicolons, it returns the text alone. -/
theorem normalizeQuery_padded (pre core post : List Char) (hcore : core ≠ [])
    (hpre : ∀ c ∈ pre, isSpace c = true)
    (hfirst : isSpace (core.head hcore) = false)
    (hlast : isSpace (core.getLast hcore) = false) (hsemi : core.getLast hcore ≠ ';')
    (hpost : ∀ c ∈ post, isSpace c = true ∨ c = ';') :
    normalizeQuery ⟨pre ++ (core ++ post)⟩ = ⟨core⟩ := by
  have htrim : TrimSpace ⟨pre ++ (core ++ post)⟩ = ⟨core ++ post.rdropWhile isSpace⟩ := by
    simp only [TrimSpace, trimChars_eq_rdropWhile]
    rw [List.dropWhile_append_of_pos hpre, ← trimChars_eq_rdropWhile,
      trimChars_core_append core post hcore hfirst hlast]
  simp only [normalizeQuery, htrim]
  apply normalizeLoop_core core hcore hfirst hlast hsemi
  · show (post.rdropWhile isSpace).length ≤ (core ++ post.rdropWhile isSpace).length
    simp
  · intro c hc
    exact hpost c ((List.rdropWhile_prefix isSpace post).subset hc)
  · exact List.rdropWhile_idempotent isSpace post

end GoMysql
